import Mathlib

/-!
Sudoku engine (`script.js`): validator, placement check and backtracking solver.

The JavaScript arrays of cell values are embedded as `List Nat`; an array read
`values[i]` is the lookup `values[i]?` (`none` stands for `undefined`), and the
strict comparison `values[i] === num` is `values[i]? == some num`.  Code that
mutates its argument (`solveSudoku`) is embedded by explicit state passing: the
function returns its JavaScript return value together with the content of the
array on return.
-/

namespace Sudoku

/-! ## Definitions translated from the source -/

/-- The function `isValid(values, index, num)`: the row/column loop followed by the box loops,
each returning `false` at the first cell found holding `num`. -/
def isValid (values : List Nat) (index num : Nat) : Bool :=
  let row := index / 9
  let col := index % 9
  if (List.range 9).any (fun i =>
      values[row * 9 + i]? == some num || values[i * 9 + col]? == some num) then false
  else
    let boxRow := row / 3 * 3
    let boxCol := col / 3 * 3
    if (List.range 3).any (fun r => (List.range 3).any (fun c =>
        values[(boxRow + r) * 9 + (boxCol + c)]? == some num)) then false
    else true

/-- The result of one stage of the search: the JavaScript return value
(`none` is `null`) and the content of the array `values` on return. -/
structure SolveResult where
  ret : Option (List Nat)
  values : List Nat
deriving DecidableEq, Repr

/-- The loop `for (let num = 1; num <= 9; num++)` of `solveSudoku`, over the
candidate digits still to try; `next` is the recursive call
`solveSudoku(values, index + 1)`. -/
def tryDigits (next : List Nat → SolveResult) (index : Nat) :
    List Nat → List Nat → SolveResult
  | [], values => ⟨none, values⟩
  | num :: rest, values =>
    if isValid values index num then
      let r := next (values.set index num)
      match r.ret with
      | some solved => ⟨some solved, r.values⟩
      | none => tryDigits next index rest (r.values.set index 0)
    else tryDigits next index rest values

/-- The digits `1, 2, ..., 9` in the order the loop tries them. -/
def digits : List Nat := [1, 2, 3, 4, 5, 6, 7, 8, 9]

/-- The recursion of `solveSudoku`, structural in the number of cells left,
`remaining = 81 - index`: no cell is left exactly when `index >= 81`. -/
def solveFrom : Nat → List Nat → Nat → SolveResult
  | 0, values, _ => ⟨some values, values⟩
  | remaining + 1, values, index =>
    if values[index]? != some 0 then solveFrom remaining values (index + 1)
    else tryDigits (fun vs => solveFrom remaining vs (index + 1)) index digits values

/-- The function `solveSudoku(values, index)`: the search over the cells from `index` on. -/
def solveSudoku (values : List Nat) (index : Nat) : SolveResult :=
  solveFrom (81 - index) values index

/-- The state `validateGrid` updates: the flag `valid` and the cells that carry
the class `invalid`. -/
structure GridState where
  valid : Bool
  invalid : List Nat
deriving DecidableEq, Repr

/-- The loop of `checkSet` over the cells still to visit; `seen` is the set of
values met so far. -/
def checkSetLoop (values : List Nat) : List Nat → List (Option Nat) → GridState → GridState
  | [], _, st => st
  | i :: rest, seen, st =>
    let val := values[i]?
    if val != some 0 then
      if seen.contains val then
        checkSetLoop values rest (val :: seen) ⟨false, st.invalid.insert i⟩
      else checkSetLoop values rest (val :: seen) st
    else checkSetLoop values rest seen st

/-- The closure `checkSet(indices)`, starting from an empty `seen`. -/
def checkSet (values : List Nat) (indices : List Nat) (st : GridState) : GridState :=
  checkSetLoop values indices [] st

/-- The cells of row `r`, as built by `Array.from` in the first loop: `r * 9 + i`. -/
def rowIndices (r : Nat) : List Nat := (List.range 9).map (fun i => r * 9 + i)

/-- The cells of column `c`, as built by `Array.from` in the second loop: `i * 9 + c`. -/
def colIndices (c : Nat) : List Nat := (List.range 9).map (fun i => i * 9 + c)

/-- The array `box` built by the two inner loops for the box `(br, bc)`. -/
def boxIndices (br bc : Nat) : List Nat :=
  (List.range 3).flatMap (fun r => (List.range 3).map (fun c => (br * 3 + r) * 9 + (bc * 3 + c)))

/-- The function `validateGrid()`, with the values read from the grid as a parameter: all
marks are cleared, then the 9 rows, the 9 columns and the 9 boxes are checked
in turn. -/
def validateGrid (values : List Nat) : GridState :=
  let st0 : GridState := ⟨true, []⟩
  let st1 := (List.range 9).foldl (fun st r => checkSet values (rowIndices r) st) st0
  let st2 := (List.range 9).foldl (fun st c => checkSet values (colIndices c) st) st1
  (List.range 3).foldl (fun st br =>
    (List.range 3).foldl (fun st bc => checkSet values (boxIndices br bc) st) st) st2

/-- The loop `while (count--)` of `generatePuzzle`.  The two calls of
`Math.random` of the `k`-th pass are the pair `draws k`: the cell index
`Math.floor(Math.random() * 81)` and the digit `Math.floor(Math.random() * 9) + 1`.
The loop returns the array and the number of pairs drawn so far. -/
def generateLoop (draws : Nat → Nat × Nat) : Nat → Nat → List Nat → List Nat × Nat
  | 0, k, base => (base, k)
  | count + 1, k, base =>
    let i := (draws k).1
    let n := (draws k).2
    generateLoop draws count (k + 1) (if base[i]? == some 0 then base.set i n else base)

/-- The number `count` that `generatePuzzle` computes from `difficulty`. -/
def attemptCount (difficulty : String) : Nat :=
  if difficulty == "easy" then 30 else if difficulty == "medium" then 20 else 10

/-- The function `generatePuzzle(difficulty)`, with the random draws as a
parameter: the board returned, paired with the number of placement attempts
made (pairs drawn). -/
def generatePuzzle (difficulty : String) (draws : Nat → Nat × Nat) : List Nat × Nat :=
  generateLoop draws (attemptCount difficulty) 0 (List.replicate 81 0)

/-! ## Vocabulary of the specification -/

/-- Row of a cell. -/
def rowOf (i : Nat) : Nat := i / 9

/-- Column of a cell. -/
def colOf (i : Nat) : Nat := i % 9

/-- Number `0..8` of the 3x3 box of a cell. -/
def boxOf (i : Nat) : Nat := i / 27 * 3 + i % 9 / 3

/-- Two cells lie in a common row, column or 3x3 box. -/
def SameGroup (i j : Nat) : Prop :=
  rowOf i = rowOf j ∨ colOf i = colOf j ∨ boxOf i = boxOf j

instance decidableSameGroup (i j : Nat) : Decidable (SameGroup i j) := by
  unfold SameGroup; infer_instance

/-- No digit is repeated in a row, a column or a box: two different cells of a
common group never hold the same non-zero value. -/
def NoRepeat (values : List Nat) : Prop :=
  ∀ i j, i < 81 → j < 81 → i ≠ j → SameGroup i j →
    values[i]? ≠ some 0 → values[i]? ≠ values[j]?

/-- Every cell holds a value in `lo..9`. -/
def InRange (lo : Nat) (values : List Nat) : Prop :=
  ∀ v ∈ values, lo ≤ v ∧ v ≤ 9

instance decidableInRange (lo : Nat) (values : List Nat) : Decidable (InRange lo values) := by
  unfold InRange; infer_instance

/-- The board with cells 0 and 1 holding 5 and every other cell empty. -/
def dupBoard : List Nat := 5 :: 5 :: List.replicate 79 0

/-- The all-zero board. -/
def emptyBoard : List Nat := List.replicate 81 0

/-- A completed grid. -/
def fullBoard : List Nat :=
  [1,2,3,4,5,6,7,8,9,
   4,5,6,7,8,9,1,2,3,
   7,8,9,1,2,3,4,5,6,
   2,1,4,3,6,5,8,9,7,
   3,6,5,8,9,7,2,1,4,
   8,9,7,2,1,4,3,6,5,
   5,3,1,6,4,2,9,7,8,
   6,4,2,9,7,8,5,3,1,
   9,7,8,5,3,1,6,4,2]

/-! ## Auxiliary predicates and sample boards -/

/-- What a successful search from `index` on `values` guarantees about the
array `S` it returns: the length is kept; every cell before `index` and every
non-zero cell is kept; every empty cell from `index` on holds a digit that no
other cell of its row, column or box holds. -/
def Extends (values S : List Nat) (index : Nat) : Prop :=
  S.length = values.length ∧
  (∀ k, k < index ∨ values[k]? ≠ some 0 → S[k]? = values[k]?) ∧
  (∀ k, index ≤ k → k < 81 → values[k]? = some 0 →
    (∃ d ∈ digits, S[k]? = some d) ∧
    ∀ j, j < 81 → j ≠ k → SameGroup k j → S[j]? ≠ S[k]?)

/-- The board `T` is a completion of `values`: every cell of `T` holds a digit
`1..9`, no digit is repeated in a row, column or box of `T`, and `T` agrees
with `values` on every non-zero cell of `values`. -/
def Completion (T values : List Nat) : Prop :=
  (∀ k, k < 81 → ∃ d ∈ digits, T[k]? = some d) ∧ NoRepeat T ∧
  ∀ k, k < 81 → values[k]? ≠ some 0 → T[k]? = values[k]?

/-- The cell `x` of the list `l` repeats a non-zero value: the value is in
`seen` already, or an earlier cell of `l` holds it. -/
def Flagged (values : List Nat) (seen : List (Option Nat)) (l : List Nat) (x : Nat) : Prop :=
  x ∈ l ∧ values[x]? ≠ some 0 ∧ (values[x]? ∈ seen ∨ ∃ y ∈ l, y < x ∧ values[y]? = values[x]?)

/-- The 27 lists of cells `validateGrid` passes to `checkSet`, in order. -/
def allGroups : List (List Nat) :=
  (List.range 9).map rowIndices ++ (List.range 9).map colIndices ++
    (List.range 3).flatMap (fun br => (List.range 3).map (fun bc => boxIndices br bc))

/-- A cell of the group `g` that repeats the non-zero value of an earlier cell of `g`. -/
def Dup (values : List Nat) (g : List Nat) (x : Nat) : Prop :=
  x ∈ g ∧ values[x]? ≠ some 0 ∧ ∃ y ∈ g, y < x ∧ values[y]? = values[x]?

/-- A puzzle: `fullBoard` with its first and last rows and a few more cells emptied. -/
def puzzleBoard : List Nat :=
  [0,0,0,0,0,0,0,0,0,
   4,5,6,7,8,9,1,2,3,
   7,8,9,1,2,3,4,5,6,
   2,1,4,0,6,5,8,9,7,
   3,6,5,8,0,7,2,1,4,
   8,9,7,2,1,0,3,6,5,
   5,3,1,6,4,2,9,7,8,
   6,4,2,9,7,8,5,3,1,
   0,0,0,0,0,0,0,0,0]

/-- A board whose givens clash: the last row holds 9 twice, in cells 72 and 73;
cells 0 and 40 are empty. -/
def conflictBoard : List Nat :=
  [0,2,3,4,5,6,7,8,9,
   4,5,6,7,8,9,1,2,3,
   7,8,9,1,2,3,4,5,6,
   2,1,4,3,6,5,8,9,7,
   3,6,5,8,0,7,2,1,4,
   8,9,7,2,1,4,3,6,5,
   5,3,1,6,4,2,9,7,8,
   6,4,2,9,7,8,5,3,1,
   9,9,8,5,3,1,6,4,2]

/-- The board `solveSudoku` returns on `conflictBoard`. -/
def conflictSolved : List Nat :=
  [1,2,3,4,5,6,7,8,9,
   4,5,6,7,8,9,1,2,3,
   7,8,9,1,2,3,4,5,6,
   2,1,4,3,6,5,8,9,7,
   3,6,5,8,9,7,2,1,4,
   8,9,7,2,1,4,3,6,5,
   5,3,1,6,4,2,9,7,8,
   6,4,2,9,7,8,5,3,1,
   9,9,8,5,3,1,6,4,2]

/-- A board with three givens, all taken from `fullBoard`: 1 in cell 0, 9 in
cell 40 and 2 in cell 80. -/
def sparseBoard : List Nat := ((emptyBoard.set 0 1).set 40 9).set 80 2

/-- The board whose only non-zero cell is cell 0, holding 5. -/
def singleBoard : List Nat := 5 :: List.replicate 80 0

/-- The board with 5 in every cell. -/
def fivesBoard : List Nat := List.replicate 81 5

/-- Number of cells `0..80` selected by `inGroup` that hold the digit `d`. -/
def occurrences (values : List Nat) (inGroup : Nat → Bool) (d : Nat) : Nat :=
  ((List.range 81).filter (fun i => inGroup i && values[i]? == some d)).length

/-- Each of the 9 rows, 9 columns and 9 boxes contains each digit `1..9` at
most once. -/
def AtMostOnce (values : List Nat) : Prop :=
  ∀ d, 1 ≤ d → d ≤ 9 → ∀ g, g < 9 →
    occurrences values (fun i => rowOf i == g) d ≤ 1 ∧
    occurrences values (fun i => colOf i == g) d ≤ 1 ∧
    occurrences values (fun i => boxOf i == g) d ≤ 1

/-- Number of non-zero cells of a board. -/
def filledCells (values : List Nat) : Nat := values.countP (fun v => v != 0)

/-- The draws are what the two `Math.random` expressions can produce: a cell
index in `0..80` and a digit in `1..9`. -/
def DrawsInRange (draws : Nat → Nat × Nat) : Prop :=
  ∀ k, (draws k).1 ≤ 80 ∧ 1 ≤ (draws k).2 ∧ (draws k).2 ≤ 9

/-- A draw sequence that names cells 0 and 1 in turn, always with digit 5. -/
def dupDraws (k : Nat) : Nat × Nat := (k % 2, 5)

/-- A draw sequence that walks through the cells 0, 7, 14, ... (mod 81) with
digits 1, 2, ..., 9, 1, ... -/
def walkDraws (k : Nat) : Nat × Nat := (k * 7 % 81, k % 9 + 1)

/-- Lexicographic comparison of two boards over the cells `0..80`: the boards
agree on every cell, or at the first cell where they differ `S` holds the
smaller value. -/
def LexLe (S T : List Nat) : Prop :=
  (∀ k, k < 81 → S[k]? = T[k]?) ∨
  ∃ k, k < 81 ∧ (∀ m, m < k → S[m]? = T[m]?) ∧
    ∃ s t, S[k]? = some s ∧ T[k]? = some t ∧ s < t

/-- A grid with a dead end: `fullBoard` with cell 72 changed to 2 and cells 79
and 80 emptied.  The search places 4 in cell 79, finds no digit for cell 80,
and takes the 4 back. -/
def deadEndBoard : List Nat := ((fullBoard.set 72 2).set 79 0).set 80 0

/-! ## The placement check -/

theorem isValid_eq_true_iff_raw (values : List Nat) (index num : Nat) :
    isValid values index num = true ↔
      (∀ i, i < 9 → values[index / 9 * 9 + i]? ≠ some num ∧ values[i * 9 + index % 9]? ≠ some num) ∧
      (∀ r, r < 3 → ∀ c, c < 3 →
        values[(index / 9 / 3 * 3 + r) * 9 + (index % 9 / 3 * 3 + c)]? ≠ some num) := by
  simp [isValid, List.any_eq_true, List.mem_range]

theorem isValid_eq_true_iff (values : List Nat) (index num : Nat) (hi : index < 81) :
    isValid values index num = true ↔
      ∀ j, j < 81 → SameGroup index j → values[j]? ≠ some num := by
  rw [isValid_eq_true_iff_raw]
  constructor
  · rintro ⟨h1, h2⟩ j hj hg
    rcases hg with hg | hg | hg
    · have e : j = index / 9 * 9 + j % 9 := by unfold rowOf at hg; omega
      rw [e]; exact (h1 (j % 9) (by omega)).1
    · have e : j = j / 9 * 9 + index % 9 := by unfold colOf at hg; omega
      rw [e]; exact (h1 (j / 9) (by omega)).2
    · have e : j = (index / 9 / 3 * 3 + j / 9 % 3) * 9 + (index % 9 / 3 * 3 + j % 3) := by
        unfold boxOf at hg; omega
      rw [e]; exact h2 (j / 9 % 3) (by omega) (j % 3) (by omega)
  · intro h
    refine ⟨fun i hi9 => ⟨?_, ?_⟩, fun r hr c hc => ?_⟩
    · exact h _ (by omega) (Or.inl (by unfold rowOf; omega))
    · exact h _ (by omega) (Or.inr (Or.inl (by unfold colOf; omega)))
    · exact h _ (by omega) (Or.inr (Or.inr (by unfold boxOf; omega)))

/-! ## The backtracking search -/

/-- The recursion of `solveSudoku` as the source writes it: return `values`
when `index >= 81`, skip a filled cell, run the digit loop on an empty one. -/
theorem solveSudoku_eq (values : List Nat) (index : Nat) :
    solveSudoku values index =
      if 81 ≤ index then ⟨some values, values⟩
      else if values[index]? != some 0 then solveSudoku values (index + 1)
      else tryDigits (fun vs => solveSudoku vs (index + 1)) index digits values := by
  unfold solveSudoku
  by_cases h : 81 ≤ index
  · rw [if_pos h, Nat.sub_eq_zero_of_le h]
    rfl
  · rw [if_neg h]
    have e : 81 - index = (81 - (index + 1)) + 1 := by omega
    rw [e]
    rfl

theorem set_set_zero_eq (values : List Nat) (index num : Nat)
    (h0 : values[index]? = some 0) : (values.set index num).set index 0 = values := by
  rw [List.set_set]
  apply List.ext_getElem?
  intro k
  rw [List.getElem?_set]
  split
  · next h => subst h; rw [h0]; simp [List.getElem?_eq_some_iff] at h0; obtain ⟨h, -⟩ := h0; simp [h]
  · rfl

/-- A failed digit loop leaves the array as it found it, when the recursive
call does. -/
theorem tryDigits_values_of_none (next : List Nat → SolveResult) (index : Nat)
    (hnext : ∀ vs, (next vs).ret = none → (next vs).values = vs)
    (cands values : List Nat) (h0 : values[index]? = some 0)
    (h : (tryDigits next index cands values).ret = none) :
    (tryDigits next index cands values).values = values := by
  induction cands with
  | nil => rfl
  | cons num rest ih =>
    unfold tryDigits at h ⊢
    split
    · next hv =>
      rw [if_pos hv] at h
      cases hr : (next (values.set index num)).ret with
      | some solved => simp [hr] at h
      | none =>
        simp only [hr] at h ⊢
        rw [hnext _ hr, set_set_zero_eq values index num h0] at h ⊢
        exact ih h
    · next hv =>
      rw [if_neg hv] at h
      exact ih h

theorem solveFrom_values_of_none (n : Nat) : ∀ (values : List Nat) (index : Nat),
    (solveFrom n values index).ret = none → (solveFrom n values index).values = values := by
  induction n with
  | zero => intro values index h; simp [solveFrom] at h
  | succ n ih =>
    intro values index h
    unfold solveFrom at h ⊢
    split
    · next hv => rw [if_pos hv] at h; exact ih _ _ h
    · next hv =>
      rw [if_neg hv] at h
      have h0 : values[index]? = some 0 := by simpa using hv
      exact tryDigits_values_of_none _ index (fun vs => ih vs (index + 1)) digits values h0 h

theorem SameGroup.symm {i j : Nat} (h : SameGroup i j) : SameGroup j i := by
  unfold SameGroup at h ⊢
  rcases h with h | h | h
  · exact Or.inl h.symm
  · exact Or.inr (Or.inl h.symm)
  · exact Or.inr (Or.inr h.symm)

theorem lookup_set_of_ne (values : List Nat) {index k : Nat} (num : Nat) (h : k ≠ index) :
    (values.set index num)[k]? = values[k]? := by
  rw [List.getElem?_set]; simp [Ne.symm h]

theorem lookup_set_self (values : List Nat) {index : Nat} (num : Nat)
    (h0 : values[index]? = some 0) : (values.set index num)[index]? = some num := by
  rw [List.getElem?_set]
  simp [List.getElem?_eq_some_iff] at h0
  obtain ⟨h, -⟩ := h0
  simp [h]

theorem extends_of_set (values S : List Nat) (index num : Nat) (hi : index < 81)
    (h0 : values[index]? = some 0) (hd : num ∈ digits)
    (hv : isValid values index num = true)
    (hS : Extends (values.set index num) S (index + 1)) : Extends values S index := by
  obtain ⟨hlen, hkeep, hnew⟩ := hS
  have hnum0 : num ≠ 0 := by rintro rfl; simp [digits] at hd
  have hSi : S[index]? = some num := by
    rw [hkeep index (Or.inl (Nat.lt_succ_self _))]
    exact lookup_set_self values num h0
  have hkeep2 : ∀ k, k < index ∨ values[k]? ≠ some 0 → S[k]? = values[k]? := by
    intro k hk
    have hne : k ≠ index := by
      rcases hk with hk | hk
      · omega
      · rintro rfl; exact hk h0
    rw [hkeep k ?_, lookup_set_of_ne values num hne]
    rcases hk with hk | hk
    · exact Or.inl (by omega)
    · right; rwa [lookup_set_of_ne values num hne]
  refine ⟨by simpa using hlen, hkeep2, ?_⟩
  intro k hk hk81 hk0
  rcases Nat.eq_or_lt_of_le hk with rfl | hlt
  · refine ⟨⟨num, hd, hSi⟩, ?_⟩
    intro j hj hjk hg
    rw [hSi]
    by_cases hj0 : j < index ∨ values[j]? ≠ some 0
    · rw [hkeep2 j hj0]
      exact (isValid_eq_true_iff values index num hi).1 hv j hj hg
    · have hj0 : ¬ j < index ∧ values[j]? = some 0 := by
        simpa [not_or] using hj0
      have hjlt : index + 1 ≤ j := by omega
      have := (hnew j hjlt hj (by rw [lookup_set_of_ne values num hjk]; exact hj0.2)).2
        index hi (Ne.symm hjk) hg.symm
      rw [hSi] at this
      exact fun e => this e.symm
  · have hne : k ≠ index := by omega
    exact hnew k hlt hk81 (by rw [lookup_set_of_ne values num hne]; exact hk0)

theorem tryDigits_extends (next : List Nat → SolveResult) (index : Nat) (hi : index < 81)
    (hnone : ∀ vs, (next vs).ret = none → (next vs).values = vs)
    (hsome : ∀ vs S, (next vs).ret = some S → Extends vs S (index + 1))
    (cands values S : List Nat) (hc : ∀ d ∈ cands, d ∈ digits)
    (h0 : values[index]? = some 0)
    (h : (tryDigits next index cands values).ret = some S) : Extends values S index := by
  induction cands with
  | nil => simp [tryDigits] at h
  | cons num rest ih =>
    have hrest : ∀ d ∈ rest, d ∈ digits := fun d hd => hc d (List.mem_cons_of_mem _ hd)
    unfold tryDigits at h
    split at h
    · next hv =>
      cases hr : (next (values.set index num)).ret with
      | some solved =>
        simp only [hr] at h
        have hS : solved = S := by simpa using h
        subst hS
        exact extends_of_set values solved index num hi h0 (hc num (List.mem_cons_self _ _)) hv
          (hsome _ _ hr)
      | none =>
        simp only [hr] at h
        rw [hnone _ hr, set_set_zero_eq values index num h0] at h
        exact ih hrest h
    · exact ih hrest h

theorem solveFrom_extends (n : Nat) : ∀ (values S : List Nat) (index : Nat),
    n = 81 - index → (solveFrom n values index).ret = some S → Extends values S index := by
  induction n with
  | zero =>
    intro values S index hn h
    have hS : values = S := by simpa [solveFrom] using h
    subst hS
    exact ⟨rfl, fun _ _ => rfl, fun k hk hk81 _ => by omega⟩
  | succ n ih =>
    intro values S index hn h
    unfold solveFrom at h
    split at h
    · next hv =>
      obtain ⟨hlen, hkeep, hnew⟩ := ih values S (index + 1) (by omega) h
      have hv : values[index]? ≠ some 0 := by simpa using hv
      refine ⟨hlen, fun k hk => hkeep k (hk.imp_left (by omega)), ?_⟩
      intro k hk hk81 hk0
      have hne : k ≠ index := by rintro rfl; exact hv hk0
      exact hnew k (by omega) hk81 hk0
    · next hv =>
      have h0 : values[index]? = some 0 := by simpa using hv
      exact tryDigits_extends _ index (by omega)
        (fun vs => solveFrom_values_of_none n vs (index + 1))
        (fun vs S => ih vs S (index + 1) (by omega)) digits values S (fun _ hd => hd) h0 h

theorem completion_isValid (T values : List Nat) (index t : Nat) (hi : index < 81)
    (hT : Completion T values) (h0 : values[index]? = some 0) (hd : t ∈ digits)
    (ht : T[index]? = some t) : isValid values index t = true := by
  rw [isValid_eq_true_iff values index t hi]
  intro j hj hg hjt
  have ht0 : t ≠ 0 := by rintro rfl; simp [digits] at hd
  have hne : index ≠ j := by
    rintro rfl
    rw [h0] at hjt
    exact ht0 (by simpa using hjt.symm)
  have hTj : T[j]? = some t := by
    rw [hT.2.2 j hj (by rw [hjt]; simpa using ht0), hjt]
  exact hT.2.1 index j hi hj hne hg (by rw [ht]; simpa using ht0) (by rw [ht, hTj])

theorem completion_set (T values : List Nat) (index t : Nat)
    (hT : Completion T values) (h0 : values[index]? = some 0)
    (ht : T[index]? = some t) : Completion T (values.set index t) := by
  refine ⟨hT.1, hT.2.1, ?_⟩
  intro k hk hk0
  by_cases hki : k = index
  · subst hki
    rw [lookup_set_self values t h0, ht]
  · rw [lookup_set_of_ne values t hki] at hk0 ⊢
    exact hT.2.2 k hk hk0

theorem tryDigits_complete (next : List Nat → SolveResult) (index : Nat) (hi : index < 81)
    (T : List Nat) (t : Nat) (ht : T[index]? = some t) (hd : t ∈ digits)
    (hnone : ∀ vs, (next vs).ret = none → (next vs).values = vs)
    (hsome : ∀ vs, Completion T vs → (next vs).ret ≠ none)
    (cands values : List Nat) (hc : t ∈ cands)
    (h0 : values[index]? = some 0) (hT : Completion T values) :
    (tryDigits next index cands values).ret ≠ none := by
  induction cands with
  | nil => simp at hc
  | cons num rest ih =>
    unfold tryDigits
    split
    · next hv =>
      cases hr : (next (values.set index num)).ret with
      | some solved => simp [hr]
      | none =>
        simp only [hr]
        rw [hnone _ hr, set_set_zero_eq values index num h0]
        have hne : t ≠ num := by
          rintro rfl
          exact hsome _ (completion_set T values index t hT h0 ht) hr
        rcases List.mem_cons.1 hc with h | h
        · exact absurd h hne
        · exact ih h
    · next hv =>
      have hne : t ≠ num := by
        rintro rfl
        exact hv (completion_isValid T values index t hi hT h0 hd ht)
      rcases List.mem_cons.1 hc with h | h
      · exact absurd h hne
      · exact ih h

theorem solveFrom_complete (T : List Nat) (n : Nat) : ∀ (values : List Nat) (index : Nat),
    n = 81 - index → Completion T values → (solveFrom n values index).ret ≠ none := by
  induction n with
  | zero => intro values index _ _; simp [solveFrom]
  | succ n ih =>
    intro values index hn hT
    unfold solveFrom
    split
    · exact ih values (index + 1) (by omega) hT
    · next hv =>
      have h0 : values[index]? = some 0 := by simpa using hv
      obtain ⟨t, hd, ht⟩ := hT.1 index (by omega)
      exact tryDigits_complete _ index (by omega) T t ht hd
        (fun vs => solveFrom_values_of_none n vs (index + 1))
        (fun vs hvs => ih vs (index + 1) (by omega) hvs) digits values hd h0 hT

/-! ## The grid validator -/

theorem flagged_nil (values : List Nat) (seen : List (Option Nat)) (x : Nat) :
    ¬ Flagged values seen [] x := by
  simp [Flagged]

theorem flagged_cons_zero (values : List Nat) (seen : List (Option Nat)) (i : Nat)
    (rest : List Nat) (hi : ∀ a ∈ rest, i < a) (hz : values[i]? = some 0) (x : Nat) :
    Flagged values seen (i :: rest) x ↔ Flagged values seen rest x := by
  constructor
  · rintro ⟨hx, hnz, h⟩
    have hxr : x ∈ rest := by
      rcases List.mem_cons.1 hx with rfl | hx
      · exact absurd hz hnz
      · exact hx
    refine ⟨hxr, hnz, h.imp_right ?_⟩
    rintro ⟨y, hy, hyx, hyv⟩
    rcases List.mem_cons.1 hy with rfl | hy
    · exact absurd (hyv ▸ hz) hnz
    · exact ⟨y, hy, hyx, hyv⟩
  · rintro ⟨hx, hnz, h⟩
    refine ⟨List.mem_cons_of_mem _ hx, hnz, h.imp_right ?_⟩
    rintro ⟨y, hy, hyx, hyv⟩
    exact ⟨y, List.mem_cons_of_mem _ hy, hyx, hyv⟩

theorem flagged_cons_nonzero (values : List Nat) (seen : List (Option Nat)) (i : Nat)
    (rest : List Nat) (hi : ∀ a ∈ rest, i < a) (hz : values[i]? ≠ some 0) (x : Nat) :
    Flagged values seen (i :: rest) x ↔
      (x = i ∧ values[i]? ∈ seen) ∨ Flagged values (values[i]? :: seen) rest x := by
  constructor
  · rintro ⟨hx, hnz, h⟩
    rcases List.mem_cons.1 hx with rfl | hx
    · left
      refine ⟨rfl, ?_⟩
      rcases h with h | ⟨y, hy, hyx, -⟩
      · exact h
      · rcases List.mem_cons.1 hy with rfl | hy
        · omega
        · have := hi y hy; omega
    · right
      refine ⟨hx, hnz, ?_⟩
      rcases h with h | ⟨y, hy, hyx, hyv⟩
      · exact Or.inl (List.mem_cons_of_mem _ h)
      · rcases List.mem_cons.1 hy with rfl | hy
        · exact Or.inl (hyv ▸ List.mem_cons_self _ _)
        · exact Or.inr ⟨y, hy, hyx, hyv⟩
  · rintro (⟨rfl, h⟩ | ⟨hx, hnz, h⟩)
    · exact ⟨List.mem_cons_self _ _, hz, Or.inl h⟩
    · refine ⟨List.mem_cons_of_mem _ hx, hnz, ?_⟩
      rcases h with h | ⟨y, hy, hyx, hyv⟩
      · rcases List.mem_cons.1 h with h | h
        · exact Or.inr ⟨i, List.mem_cons_self _ _, hi x hx, h.symm⟩
        · exact Or.inl h
      · exact Or.inr ⟨y, List.mem_cons_of_mem _ hy, hyx, hyv⟩

/-- The loop of `checkSet` on an ascending list of cells: `valid` stays `true`
exactly when no cell is flagged, and the cells marked are the flagged ones. -/
theorem checkSetLoop_spec (values : List Nat) : ∀ (l : List Nat), l.Pairwise (· < ·) →
    ∀ (seen : List (Option Nat)) (st : GridState),
      ((checkSetLoop values l seen st).valid = true ↔
        st.valid = true ∧ ∀ x, ¬ Flagged values seen l x) ∧
      ∀ x, x ∈ (checkSetLoop values l seen st).invalid ↔
        x ∈ st.invalid ∨ Flagged values seen l x := by
  intro l
  induction l with
  | nil =>
    intro _ seen st
    simp [checkSetLoop, flagged_nil]
  | cons i rest ih =>
    intro hl seen st
    have hi : ∀ a ∈ rest, i < a := (List.pairwise_cons.1 hl).1
    have hrest := (List.pairwise_cons.1 hl).2
    unfold checkSetLoop
    by_cases hz : values[i]? = some 0
    · simp only [hz, bne_self_eq_false, Bool.false_eq_true, if_false]
      obtain ⟨h1, h2⟩ := ih hrest seen st
      refine ⟨?_, ?_⟩
      · rw [h1]; simp only [flagged_cons_zero values seen i rest hi hz]
      · intro x; rw [h2 x, flagged_cons_zero values seen i rest hi hz]
    · have hb : (values[i]? != some 0) = true := by simpa using hz
      simp only [hb, if_true]
      by_cases hs : values[i]? ∈ seen
      · have hc : seen.contains values[i]? = true := by simpa using hs
        simp only [hc, if_true]
        obtain ⟨h1, h2⟩ := ih hrest (values[i]? :: seen) ⟨false, st.invalid.insert i⟩
        refine ⟨?_, ?_⟩
        · rw [h1]
          constructor
          · rintro ⟨h, -⟩; exact absurd h (by simp)
          · rintro ⟨-, h⟩
            exact absurd ((flagged_cons_nonzero values seen i rest hi hz i).2 (Or.inl ⟨rfl, hs⟩))
              (h i)
        · intro x
          rw [h2 x, flagged_cons_nonzero values seen i rest hi hz x]
          simp only [List.mem_insert_iff]
          constructor
          · rintro ((rfl | h) | h)
            · exact Or.inr (Or.inl ⟨rfl, hs⟩)
            · exact Or.inl h
            · exact Or.inr (Or.inr h)
          · rintro (h | ⟨rfl, -⟩ | h)
            · exact Or.inl (Or.inr h)
            · exact Or.inl (Or.inl rfl)
            · exact Or.inr h
      · have hc : seen.contains values[i]? = false := by simpa using hs
        simp only [hc, Bool.false_eq_true, if_false]
        obtain ⟨h1, h2⟩ := ih hrest (values[i]? :: seen) st
        refine ⟨?_, ?_⟩
        · rw [h1]
          simp only [flagged_cons_nonzero values seen i rest hi hz, hs, and_false, false_or]
        · intro x
          rw [h2 x, flagged_cons_nonzero values seen i rest hi hz x]
          simp only [hs, and_false, false_or]

theorem validateGrid_eq_foldl (values : List Nat) :
    validateGrid values = allGroups.foldl (fun st g => checkSet values g st) ⟨true, []⟩ := by
  rfl

theorem flagged_nil_seen (values : List Nat) (g : List Nat) (x : Nat) :
    Flagged values [] g x ↔ Dup values g x := by
  simp [Flagged, Dup]

theorem foldl_checkSet_spec (values : List Nat) : ∀ (gs : List (List Nat)),
    (∀ g ∈ gs, g.Pairwise (· < ·)) → ∀ (st : GridState),
      ((gs.foldl (fun st g => checkSet values g st) st).valid = true ↔
        st.valid = true ∧ ∀ g ∈ gs, ∀ x, ¬ Dup values g x) ∧
      ∀ x, x ∈ (gs.foldl (fun st g => checkSet values g st) st).invalid ↔
        x ∈ st.invalid ∨ ∃ g ∈ gs, Dup values g x := by
  intro gs
  induction gs with
  | nil => intro _ st; simp
  | cons g gs ih =>
    intro hs st
    obtain ⟨h1, h2⟩ := ih (fun g hg => hs g (List.mem_cons_of_mem _ hg)) (checkSet values g st)
    obtain ⟨k1, k2⟩ := checkSetLoop_spec values g (hs g (List.mem_cons_self _ _)) [] st
    simp only [List.foldl_cons]
    refine ⟨?_, ?_⟩
    · rw [h1]
      unfold checkSet
      rw [k1]
      simp only [flagged_nil_seen, List.forall_mem_cons, and_assoc]
    · intro x
      rw [h2 x]
      unfold checkSet
      rw [k2 x]
      simp only [flagged_nil_seen, List.exists_mem_cons_iff, or_assoc]

theorem allGroups_sorted : ∀ g ∈ allGroups, g.Pairwise (· < ·) := by
  decide

theorem allGroups_sameGroup : ∀ g ∈ allGroups, ∀ x ∈ g, ∀ y ∈ g,
    x < 81 ∧ y < 81 ∧ SameGroup x y := by
  decide

theorem exists_group_of_sameGroup (i j : Nat) (hi : i < 81) (hj : j < 81)
    (h : SameGroup i j) : ∃ g ∈ allGroups, i ∈ g ∧ j ∈ g := by
  rcases h with h | h | h
  · refine ⟨rowIndices (i / 9), ?_, ?_, ?_⟩
    · simp only [allGroups, List.mem_append, List.mem_map, List.mem_range]
      exact Or.inl (Or.inl ⟨i / 9, by omega, rfl⟩)
    · simp only [rowIndices, List.mem_map, List.mem_range]
      exact ⟨i % 9, by omega, by omega⟩
    · simp only [rowIndices, List.mem_map, List.mem_range]
      exact ⟨j % 9, by omega, by unfold rowOf at h; omega⟩
  · refine ⟨colIndices (i % 9), ?_, ?_, ?_⟩
    · simp only [allGroups, List.mem_append, List.mem_map, List.mem_range]
      exact Or.inl (Or.inr ⟨i % 9, by omega, rfl⟩)
    · simp only [colIndices, List.mem_map, List.mem_range]
      exact ⟨i / 9, by omega, by omega⟩
    · simp only [colIndices, List.mem_map, List.mem_range]
      exact ⟨j / 9, by omega, by unfold colOf at h; omega⟩
  · refine ⟨boxIndices (i / 27) (i % 9 / 3), ?_, ?_, ?_⟩
    · simp only [allGroups, List.mem_append, List.mem_map, List.mem_range, List.mem_flatMap]
      exact Or.inr ⟨i / 27, by omega, i % 9 / 3, by omega, rfl⟩
    · simp only [boxIndices, List.mem_map, List.mem_range, List.mem_flatMap]
      exact ⟨i / 9 % 3, by omega, i % 3, by omega, by omega⟩
    · simp only [boxIndices, List.mem_map, List.mem_range, List.mem_flatMap]
      exact ⟨j / 9 % 3, by omega, j % 3, by omega, by unfold boxOf at h; omega⟩

/-- The cells `validateGrid` marks. -/
theorem mem_invalid_iff (values : List Nat) (x : Nat) :
    x ∈ (validateGrid values).invalid ↔
      x < 81 ∧ values[x]? ≠ some 0 ∧
        ∃ y, y < x ∧ SameGroup x y ∧ values[y]? = values[x]? := by
  rw [validateGrid_eq_foldl, (foldl_checkSet_spec values allGroups allGroups_sorted _).2 x]
  simp only [List.not_mem_nil, false_or]
  constructor
  · rintro ⟨g, hg, hx, hnz, y, hy, hyx, hyv⟩
    obtain ⟨hx81, -, hxy⟩ := allGroups_sameGroup g hg x hx y hy
    exact ⟨hx81, hnz, y, hyx, hxy, hyv⟩
  · rintro ⟨hx, hnz, y, hyx, hxy, hyv⟩
    obtain ⟨g, hg, hxg, hyg⟩ := exists_group_of_sameGroup x y hx (by omega) hxy
    exact ⟨g, hg, hxg, hnz, y, hyg, hyx, hyv⟩

/-- The flag `validateGrid` returns. -/
theorem valid_iff_noRepeat (values : List Nat) :
    (validateGrid values).valid = true ↔ NoRepeat values := by
  rw [validateGrid_eq_foldl, (foldl_checkSet_spec values allGroups allGroups_sorted _).1]
  simp only [true_and]
  constructor
  · intro h i j hi hj hij hg hnz he
    obtain ⟨g, hgs, hig, hjg⟩ := exists_group_of_sameGroup i j hi hj hg
    rcases Nat.lt_or_gt_of_ne hij with hlt | hlt
    · exact h g hgs j ⟨hjg, he ▸ hnz, i, hig, hlt, he⟩
    · exact h g hgs i ⟨hig, hnz, j, hjg, hlt, he.symm⟩
  · rintro h g hgs x ⟨hx, hnz, y, hy, hyx, hyv⟩
    obtain ⟨hx81, hy81, hxy⟩ := allGroups_sameGroup g hgs x hx y hy
    exact h x y hx81 hy81 (by omega) hxy hnz hyv.symm

/-! ## Consequences for whole boards -/

theorem mem_digits (v : Nat) : v ∈ digits ↔ 1 ≤ v ∧ v ≤ 9 := by
  simp only [digits, List.mem_cons, List.mem_singleton, List.not_mem_nil, or_false]
  omega

theorem solveSudoku_extends (B S : List Nat) (h : (solveSudoku B 0).ret = some S) :
    Extends B S 0 :=
  solveFrom_extends 81 B S 0 rfl h

/-- Every cell of a returned board holds a digit or the given it started with. -/
theorem extends_cell (B S : List Nat) (hlen : B.length = 81) (hS : Extends B S 0)
    (k : Nat) (hk : k < 81) :
    ∃ v, S[k]? = some v ∧ v ≠ 0 ∧ (B[k]? = some v ∨ (B[k]? = some 0 ∧ v ∈ digits)) := by
  obtain ⟨-, hkeep, hnew⟩ := hS
  have hkB : k < B.length := by omega
  by_cases h0 : B[k]? = some 0
  · obtain ⟨⟨v, hv, e⟩, -⟩ := hnew k (Nat.zero_le _) hk h0
    exact ⟨v, e, by have := (mem_digits v).1 hv; omega, Or.inr ⟨h0, hv⟩⟩
  · refine ⟨B[k], ?_, ?_, Or.inl (List.getElem?_eq_getElem hkB)⟩
    · rw [hkeep k (Or.inr h0)]; exact List.getElem?_eq_getElem hkB
    · intro e; apply h0; rw [List.getElem?_eq_getElem hkB, e]

theorem extends_noRepeat (B S : List Nat) (hB : NoRepeat B) (hS : Extends B S 0) :
    NoRepeat S := by
  obtain ⟨-, hkeep, hnew⟩ := hS
  intro i j hi hj hij hg hnz
  by_cases hi0 : B[i]? = some 0
  · exact fun e => (hnew i (Nat.zero_le _) hi hi0).2 j hj (Ne.symm hij) hg e.symm
  · by_cases hj0 : B[j]? = some 0
    · exact (hnew j (Nat.zero_le _) hj hj0).2 i hi hij hg.symm
    · rw [hkeep i (Or.inr hi0), hkeep j (Or.inr hj0)]
      exact hB i j hi hj hij hg hi0

theorem mem_iff_lookup_lt (S : List Nat) (n : Nat) (hlen : S.length = n) (v : Nat) :
    v ∈ S ↔ ∃ k, k < n ∧ S[k]? = some v := by
  rw [List.mem_iff_getElem?]
  constructor
  · rintro ⟨k, hk⟩
    refine ⟨k, ?_, hk⟩
    have := (List.getElem?_eq_some_iff.1 hk).1
    omega
  · rintro ⟨k, -, hk⟩
    exact ⟨k, hk⟩

theorem completion_of_board (B T : List Nat) (hTlen : T.length = 81) (hT : InRange 1 T)
    (hTvalid : NoRepeat T) (hagree : ∀ i, i < 81 → B[i]? ≠ some 0 → T[i]? = B[i]?) :
    Completion T B := by
  refine ⟨fun k hk => ?_, hTvalid, hagree⟩
  have hkT : k < T.length := by omega
  exact ⟨T[k], (mem_digits _).2 (hT _ (List.getElem_mem hkT)), List.getElem?_eq_getElem hkT⟩

set_option maxRecDepth 100000 in
theorem noRepeat_fullBoard : NoRepeat fullBoard :=
  (valid_iff_noRepeat fullBoard).1 (by decide)

/-! ## Counting occurrences in a group -/

theorem filter_length_le_one_iff (l : List Nat) (hl : l.Nodup) (q : Nat → Bool) :
    (l.filter q).length ≤ 1 ↔ ∀ a ∈ l, ∀ b ∈ l, q a = true → q b = true → a = b := by
  have hm : ∀ x, x ∈ l.filter q ↔ x ∈ l ∧ q x = true := fun x => List.mem_filter
  have hn : (l.filter q).Nodup := hl.filter _
  generalize l.filter q = m at hm hn
  constructor
  · intro h a ha b hb qa qb
    have ha2 := (hm a).2 ⟨ha, qa⟩
    have hb2 := (hm b).2 ⟨hb, qb⟩
    match m, h, ha2, hb2 with
    | [x], _, ha2, hb2 =>
      rw [List.mem_singleton] at ha2 hb2
      rw [ha2, hb2]
    | _ :: _ :: _, h, _, _ => simp at h
  · intro h
    match m, hm, hn with
    | [], _, _ => simp
    | [_], _, _ => simp
    | x :: y :: t, hm, hn =>
      exfalso
      have hx := (hm x).1 (List.mem_cons_self _ _)
      have hy := (hm y).1 (List.mem_cons_of_mem _ (List.mem_cons_self _ _))
      have hxy : x ≠ y := by
        intro e
        rw [List.nodup_cons] at hn
        exact hn.1 (e ▸ List.mem_cons_self _ _)
      exact hxy (h x hx.1 y hy.1 hx.2 hy.2)

theorem occurrences_le_one_iff (values : List Nat) (inGroup : Nat → Bool) (d : Nat) :
    occurrences values inGroup d ≤ 1 ↔
      ∀ a, a < 81 → ∀ b, b < 81 → inGroup a = true → values[a]? = some d →
        inGroup b = true → values[b]? = some d → a = b := by
  unfold occurrences
  rw [filter_length_le_one_iff _ (List.nodup_range 81)]
  simp only [List.mem_range, Bool.and_eq_true, beq_iff_eq]
  constructor
  · intro h a ha b hb ga va gb vb
    exact h a ha b hb ⟨ga, va⟩ ⟨gb, vb⟩
  · intro h a ha b hb ⟨ga, va⟩ ⟨gb, vb⟩
    exact h a ha b hb ga va gb vb

theorem noRepeat_of_atMostOnce (values : List Nat) (hlen : values.length = 81)
    (hrange : InRange 0 values) (h : AtMostOnce values) : NoRepeat values := by
  intro i j hi hj hij hg hnz he
  have hiv : values[i]? = some values[i] := List.getElem?_eq_getElem (by omega)
  have hd := hrange _ (List.getElem_mem (show i < values.length by omega))
  have hd0 : values[i] ≠ 0 := by
    intro e; apply hnz; rw [hiv, e]
  have hjv : values[j]? = some values[i] := by rw [← he, hiv]
  rcases hg with hg | hg | hg
  · exact hij ((occurrences_le_one_iff values _ _).1
      (h values[i] (by omega) hd.2 (rowOf i) (by unfold rowOf; omega)).1
      i hi j hj (by simp) hiv (by simp [hg]) hjv)
  · exact hij ((occurrences_le_one_iff values _ _).1
      (h values[i] (by omega) hd.2 (colOf i) (by unfold colOf; omega)).2.1
      i hi j hj (by simp) hiv (by simp [hg]) hjv)
  · exact hij ((occurrences_le_one_iff values _ _).1
      (h values[i] (by omega) hd.2 (boxOf i) (by unfold boxOf; omega)).2.2
      i hi j hj (by simp) hiv (by simp [hg]) hjv)

theorem atMostOnce_of_noRepeat (values : List Nat) (h : NoRepeat values) :
    AtMostOnce values := by
  intro d hd1 _ g _
  have key : ∀ a, a < 81 → ∀ b, b < 81 → SameGroup a b → values[a]? = some d →
      values[b]? = some d → a = b := by
    intro a ha b hb hg va vb
    by_contra hab
    exact h a b ha hb hab hg (by rw [va]; simp; omega) (by rw [va, vb])
  refine ⟨?_, ?_, ?_⟩
  · rw [occurrences_le_one_iff]
    intro a ha b hb ga va gb vb
    simp only [beq_iff_eq] at ga gb
    exact key a ha b hb (Or.inl (by rw [ga, gb])) va vb
  · rw [occurrences_le_one_iff]
    intro a ha b hb ga va gb vb
    simp only [beq_iff_eq] at ga gb
    exact key a ha b hb (Or.inr (Or.inl (by rw [ga, gb]))) va vb
  · rw [occurrences_le_one_iff]
    intro a ha b hb ga va gb vb
    simp only [beq_iff_eq] at ga gb
    exact key a ha b hb (Or.inr (Or.inr (by rw [ga, gb]))) va vb

/-! ## A row pair that cannot be completed -/

/-- A row whose nine cells hold pairwise different digits holds every digit. -/
theorem row_contains (S : List Nat) (r d : Nat) (hd : d ∈ digits)
    (hcell : ∀ c, c < 9 → ∃ v ∈ digits, S[r * 9 + c]? = some v)
    (hinj : ∀ c, c < 9 → ∀ c', c' < 9 → c ≠ c' → S[r * 9 + c]? ≠ S[r * 9 + c']?) :
    ∃ c, c < 9 ∧ S[r * 9 + c]? = some d := by
  let g : Fin 9 → Fin 9 := fun c =>
    ⟨((S[r * 9 + c.1]?).getD 1 - 1) % 9, Nat.mod_lt _ (by norm_num)⟩
  have ginj : Function.Injective g := by
    intro a b hab
    by_contra hne
    obtain ⟨va, hva, ea⟩ := hcell a a.2
    obtain ⟨vb, hvb, eb⟩ := hcell b b.2
    have h1 : (va - 1) % 9 = (vb - 1) % 9 := by
      have := congrArg Fin.val hab
      simpa [g, ea, eb] using this
    have h2 := (mem_digits va).1 hva
    have h3 := (mem_digits vb).1 hvb
    have h4 : va = vb := by omega
    exact hinj a a.2 b b.2 (fun e => hne (Fin.ext e)) (by rw [ea, eb, h4])
  obtain ⟨c, hc⟩ := (Finite.injective_iff_surjective.1 ginj)
    ⟨d - 1, by have := (mem_digits d).1 hd; omega⟩
  obtain ⟨v, hv, e⟩ := hcell c c.2
  refine ⟨c, c.2, ?_⟩
  have h1 : (v - 1) % 9 = d - 1 := by
    have := congrArg Fin.val hc
    simpa [g, e] using this
  have h2 := (mem_digits v).1 hv
  have h3 := (mem_digits d).1 hd
  have h4 : v = d := by omega
  rw [e, h4]

/-- No board holds the digit `d` in two cells `i`, `j` of one row while each
of its other 79 cells holds a digit that no other cell of its row, column or
box holds: the other eight rows would need eight columns for their `d`, and
only seven are left. -/
theorem no_fill_of_row_pair (S : List Nat) (i j d : Nat) (hi : i < 81) (hj : j < 81)
    (hij : i ≠ j) (hrow : rowOf i = rowOf j) (hd : d ∈ digits)
    (hSi : S[i]? = some d) (hSj : S[j]? = some d)
    (hfree : ∀ k, k < 81 → k ≠ i → k ≠ j →
      (∃ v ∈ digits, S[k]? = some v) ∧
      ∀ m, m < 81 → m ≠ k → SameGroup k m → S[m]? ≠ S[k]?) : False := by
  unfold rowOf at hrow
  have hcol : ∀ r : Fin 9, ∃ c : Fin 9,
      S[r.1 * 9 + c.1]? = some d ∧ (r.1 = i / 9 → c.1 = i % 9) := by
    intro r
    have hr := r.2
    by_cases hri : r.1 = i / 9
    · refine ⟨⟨i % 9, Nat.mod_lt _ (by norm_num)⟩, ?_, fun _ => rfl⟩
      have e : r.1 * 9 + i % 9 = i := by omega
      simp only [e, hSi]
    · obtain ⟨c, hc, e⟩ := row_contains S r.1 d hd
        (fun c hc => (hfree (r.1 * 9 + c) (by omega) (by omega) (by omega)).1)
        (fun c hc c' hc' hne => (hfree (r.1 * 9 + c') (by omega) (by omega) (by omega)).2
          (r.1 * 9 + c) (by omega) (by omega) (Or.inl (by unfold rowOf; omega)))
      exact ⟨⟨c, hc⟩, e, fun h => absurd h hri⟩
  choose F hF using hcol
  have hclash : ∀ a b : Fin 9, a.1 ≠ i / 9 → a ≠ b → F a = F b → False := by
    intro a b ha hab hFab
    have hav := a.2
    have hbv := b.2
    have hcv := (F a).2
    have hne : a.1 ≠ b.1 := fun e => hab (Fin.ext e)
    have h1 := (hfree (a.1 * 9 + (F a).1) (by omega) (by omega) (by omega)).2
      (b.1 * 9 + (F a).1) (by omega) (by omega) (Or.inr (Or.inl (by unfold colOf; omega)))
    have h2 := (hF b).1
    rw [← hFab] at h2
    rw [h2, (hF a).1] at h1
    exact h1 rfl
  have Finj : Function.Injective F := by
    intro a b hFab
    by_contra hab
    by_cases ha : a.1 = i / 9
    · have hb : b.1 ≠ i / 9 := fun hb => hab (Fin.ext (by rw [ha, hb]))
      exact hclash b a hb (Ne.symm hab) hFab.symm
    · exact hclash a b ha hab hFab
  obtain ⟨a, ha⟩ := (Finite.injective_iff_surjective.1 Finj) ⟨j % 9, Nat.mod_lt _ (by norm_num)⟩
  have hav := a.2
  have hc : (F a).1 = j % 9 := by rw [ha]
  by_cases hai : a.1 = i / 9
  · have := (hF a).2 hai
    omega
  · have h1 := (hfree (a.1 * 9 + (F a).1) (by omega) (by omega) (by omega)).2
      j hj (by omega) (Or.inr (Or.inl (by unfold colOf; omega)))
    rw [(hF a).1, hSj] at h1
    exact h1 rfl

/-! ## The puzzle generator -/

theorem generateLoop_attempts (draws : Nat → Nat × Nat) (count : Nat) :
    ∀ (k : Nat) (base : List Nat), (generateLoop draws count k base).2 = k + count := by
  induction count with
  | zero => intro k base; rfl
  | succ count ih =>
    intro k base
    unfold generateLoop
    simp only
    rw [ih]
    omega

theorem generateLoop_length (draws : Nat → Nat × Nat) (count : Nat) :
    ∀ (k : Nat) (base : List Nat),
      (generateLoop draws count k base).1.length = base.length := by
  induction count with
  | zero => intro k base; rfl
  | succ count ih =>
    intro k base
    unfold generateLoop
    simp only
    rw [ih]
    split <;> simp

theorem inRange_set (base : List Nat) (i n : Nat) (hn : n ≤ 9) (h : InRange 0 base) :
    InRange 0 (base.set i n) := by
  intro v hv
  rcases List.mem_or_eq_of_mem_set hv with hv | rfl
  · exact h v hv
  · exact ⟨Nat.zero_le _, hn⟩

theorem generateLoop_inRange (draws : Nat → Nat × Nat) (hd : ∀ k, (draws k).2 ≤ 9)
    (count : Nat) : ∀ (k : Nat) (base : List Nat), InRange 0 base →
      InRange 0 (generateLoop draws count k base).1 := by
  induction count with
  | zero => intro k base h; exact h
  | succ count ih =>
    intro k base h
    unfold generateLoop
    simp only
    apply ih
    split
    · exact inRange_set base _ _ (hd k) h
    · exact h

theorem countP_set_le (p : Nat → Bool) (n : Nat) : ∀ (l : List Nat) (i : Nat),
    (l.set i n).countP p ≤ l.countP p + 1 := by
  intro l
  induction l with
  | nil => intro i; simp
  | cons a l ih =>
    intro i
    cases i with
    | zero =>
      simp only [List.set_cons_zero, List.countP_cons]
      split <;> split <;> omega
    | succ i =>
      simp only [List.set_cons_succ, List.countP_cons]
      have := ih i
      omega

theorem generateLoop_filled (draws : Nat → Nat × Nat) (count : Nat) :
    ∀ (k : Nat) (base : List Nat),
      filledCells (generateLoop draws count k base).1 ≤ filledCells base + count := by
  induction count with
  | zero => intro k base; exact Nat.le_refl _
  | succ count ih =>
    intro k base
    unfold generateLoop
    simp only
    refine Nat.le_trans (ih _ _) ?_
    split
    · have := countP_set_le (fun v => v != 0) (draws k).2 base (draws k).1
      unfold filledCells
      omega
    · omega

theorem generateLoop_kept (draws : Nat → Nat × Nat) (i : Nat) (count : Nat) :
    ∀ (k : Nat) (base : List Nat), base[i]? ≠ some 0 →
      (generateLoop draws count k base).1[i]? = base[i]? := by
  induction count with
  | zero => intro k base _; rfl
  | succ count ih =>
    intro k base h
    unfold generateLoop
    simp only
    have e : (if base[(draws k).1]? == some 0 then base.set (draws k).1 (draws k).2
        else base)[i]? = base[i]? := by
      split
      · next hc =>
        have hne : i ≠ (draws k).1 := by
          rintro rfl
          exact h (by simpa using hc)
        exact lookup_set_of_ne base _ hne
      · rfl
    rw [ih _ _ (by rw [e]; exact h), e]

theorem generateLoop_untouched (draws : Nat → Nat × Nat) (i : Nat) (count : Nat) :
    ∀ (k : Nat) (base : List Nat), base[i]? = some 0 →
      (∀ j, k ≤ j → j < k + count → (draws j).1 ≠ i) →
      (generateLoop draws count k base).1[i]? = some 0 := by
  induction count with
  | zero => intro k base h _; exact h
  | succ count ih =>
    intro k base h hno
    unfold generateLoop
    simp only
    have hne : i ≠ (draws k).1 := Ne.symm (hno k (Nat.le_refl _) (by omega))
    apply ih
    · split
      · rw [lookup_set_of_ne base _ hne]; exact h
      · exact h
    · intro j hj hj2
      exact hno j (by omega) (by omega)

theorem generateLoop_first (draws : Nat → Nat × Nat) (hd : ∀ k, (draws k).2 ≠ 0) (i : Nat)
    (count : Nat) : ∀ (k : Nat) (base : List Nat) (j : Nat), base[i]? = some 0 →
      k ≤ j → j < k + count → (draws j).1 = i →
      (∀ j', k ≤ j' → j' < j → (draws j').1 ≠ i) →
      (generateLoop draws count k base).1[i]? = some (draws j).2 := by
  induction count with
  | zero => intro k base j _ h1 h2; omega
  | succ count ih =>
    intro k base j h hkj hj hji hfirst
    unfold generateLoop
    simp only
    rcases Nat.eq_or_lt_of_le hkj with rfl | hlt
    · have hc : (base[(draws k).1]? == some 0) = true := by rw [hji, h]; simp
      rw [if_pos hc, generateLoop_kept draws i count (k + 1) _ ?_]
      · rw [hji]; exact lookup_set_self base _ h
      · rw [hji, lookup_set_self base _ h]
        simpa using hd k
    · have hne : i ≠ (draws k).1 := Ne.symm (hfirst k (Nat.le_refl _) hlt)
      apply ih (k + 1) _ j ?_ (by omega) (by omega) hji
      · intro j' hj' hj2
        exact hfirst j' (by omega) hj2
      · split
        · rw [lookup_set_of_ne base _ hne]; exact h
        · exact h

theorem replicate_lookup (i : Nat) (hi : i < 81) : (List.replicate 81 0)[i]? = some 0 := by
  rw [List.getElem?_replicate]
  simp [hi]

/-- Among the draws `0..n-1` that name the cell `i`, there is a first one. -/
theorem exists_first_draw (draws : Nat → Nat × Nat) (i n k : Nat) (hk : k < n)
    (hki : (draws k).1 = i) :
    ∃ j, j < n ∧ (draws j).1 = i ∧ ∀ j', j' < j → (draws j').1 ≠ i := by
  induction k using Nat.strong_induction_on with
  | _ k ih =>
    by_cases h : ∃ j', j' < k ∧ (draws j').1 = i
    · obtain ⟨j', hj', hji⟩ := h
      exact ih j' hj' (by omega) hji
    · exact ⟨k, hk, hki, fun j' hj' hji => h ⟨j', hj', hji⟩⟩

/-! ## The first solution found is the least one -/

theorem tryDigits_least (next : List Nat → SolveResult) (index : Nat) (hi : index < 81)
    (T : List Nat) (t : Nat) (ht : T[index]? = some t) (hd : t ∈ digits)
    (hnone : ∀ vs, (next vs).ret = none → (next vs).values = vs)
    (hext : ∀ vs S, (next vs).ret = some S → Extends vs S (index + 1))
    (hcomplete : ∀ vs, Completion T vs → (next vs).ret ≠ none)
    (hleast : ∀ vs S, Completion T vs → (∀ k, k < index + 1 → T[k]? = vs[k]?) →
      (next vs).ret = some S → LexLe S T)
    (cands values S : List Nat) (hsorted : cands.Pairwise (· < ·)) (hc : t ∈ cands)
    (h0 : values[index]? = some 0) (hT : Completion T values)
    (hpre : ∀ k, k < index → T[k]? = values[k]?)
    (h : (tryDigits next index cands values).ret = some S) : LexLe S T := by
  induction cands with
  | nil => simp at hc
  | cons num rest ih =>
    have hlt : ∀ a ∈ rest, num < a := (List.pairwise_cons.1 hsorted).1
    have hrest := (List.pairwise_cons.1 hsorted).2
    unfold tryDigits at h
    split at h
    · next hv =>
      cases hr : (next (values.set index num)).ret with
      | some solved =>
        simp only [hr] at h
        have hS : solved = S := by simpa using h
        subst hS
        by_cases hnt : num = t
        · subst hnt
          refine hleast _ _ (completion_set T values index num hT h0 ht) ?_ hr
          intro k hk
          by_cases hki : k = index
          · subst hki; rw [lookup_set_self values num h0, ht]
          · rw [lookup_set_of_ne values num hki]; exact hpre k (by omega)
        · have htr : t ∈ rest := by
            rcases List.mem_cons.1 hc with e | e
            · exact absurd e.symm hnt
            · exact e
          obtain ⟨-, hkeep, -⟩ := hext _ _ hr
          right
          refine ⟨index, hi, ?_, num, t, ?_, ht, hlt t htr⟩
          · intro m hm
            rw [hkeep m (Or.inl (by omega)), lookup_set_of_ne values num (by omega)]
            exact (hpre m hm).symm
          · rw [hkeep index (Or.inl (by omega)), lookup_set_self values num h0]
      | none =>
        simp only [hr] at h
        rw [hnone _ hr, set_set_zero_eq values index num h0] at h
        have hne : t ≠ num := by
          rintro rfl
          exact hcomplete _ (completion_set T values index t hT h0 ht) hr
        rcases List.mem_cons.1 hc with e | e
        · exact absurd e hne
        · exact ih hrest e h
    · next hv =>
      have hne : t ≠ num := by
        rintro rfl
        exact hv (completion_isValid T values index t hi hT h0 hd ht)
      rcases List.mem_cons.1 hc with e | e
      · exact absurd e hne
      · exact ih hrest e h

theorem solveFrom_least (T : List Nat) (n : Nat) : ∀ (values S : List Nat) (index : Nat),
    n = 81 - index → Completion T values → (∀ k, k < index → T[k]? = values[k]?) →
    (solveFrom n values index).ret = some S → LexLe S T := by
  induction n with
  | zero =>
    intro values S index hn _ hpre h
    have hS : values = S := by simpa [solveFrom] using h
    subst hS
    exact Or.inl (fun k hk => (hpre k (by omega)).symm)
  | succ n ih =>
    intro values S index hn hT hpre h
    unfold solveFrom at h
    split at h
    · next hv =>
      have hv : values[index]? ≠ some 0 := by simpa using hv
      refine ih values S (index + 1) (by omega) hT ?_ h
      intro k hk
      by_cases hki : k = index
      · subst hki; exact hT.2.2 k (by omega) hv
      · exact hpre k (by omega)
    · next hv =>
      have h0 : values[index]? = some 0 := by simpa using hv
      obtain ⟨t, hd, ht⟩ := hT.1 index (by omega)
      exact tryDigits_least _ index (by omega) T t ht hd
        (fun vs => solveFrom_values_of_none n vs (index + 1))
        (fun vs S => solveFrom_extends n vs S (index + 1) (by omega))
        (fun vs hvs => solveFrom_complete T n vs (index + 1) (by omega) hvs)
        (fun vs S hvs hp => ih vs S (index + 1) (by omega) hvs hp)
        digits values S (by decide) hd h0 hT hpre h


/-! ## The claims -/

/-- C1: solver soundness.  For every 81-cell board `B` with values in `0..9` on
which `validateGrid` reports no conflict, if `solveSudoku(B)` returns a board
`S`, then `S` has 81 cells, every cell of `S` is in `1..9`, no digit occurs
twice in a row, column or box of `S`, and `validateGrid` reports `S` valid. -/
theorem solveSudoku_sound (B S : List Nat) (hlen : B.length = 81) (hrange : InRange 0 B)
    (hvalid : (validateGrid B).valid = true) (hret : (solveSudoku B 0).ret = some S) :
    S.length = 81 ∧ InRange 1 S ∧ NoRepeat S ∧ (validateGrid S).valid = true := by
  have hS := solveSudoku_extends B S hret
  have hSlen : S.length = 81 := by rw [hS.1, hlen]
  have hno : NoRepeat S := extends_noRepeat B S ((valid_iff_noRepeat B).1 hvalid) hS
  refine ⟨hSlen, ?_, hno, (valid_iff_noRepeat S).2 hno⟩
  intro v hv
  obtain ⟨k, hk, hkv⟩ := (mem_iff_lookup_lt S 81 hSlen v).1 hv
  obtain ⟨w, hw, hw0, hB⟩ := extends_cell B S hlen hS k hk
  have hwv : w = v := by rw [hw] at hkv; exact Option.some.inj hkv
  subst hwv
  rcases hB with hB | ⟨-, hB⟩
  · have := hrange w (List.getElem?_mem hB)
    omega
  · exact (mem_digits w).1 hB

set_option maxRecDepth 1000000 in
/-- Witness for C1 at `puzzleBoard`, which the search completes to `fullBoard`. -/
theorem solveSudoku_sound_witness :
    puzzleBoard.length = 81 ∧ InRange 0 puzzleBoard ∧
      (validateGrid puzzleBoard).valid = true ∧
      (solveSudoku puzzleBoard 0).ret = some fullBoard ∧
      (fullBoard.length = 81 ∧ InRange 1 fullBoard ∧ NoRepeat fullBoard ∧
        (validateGrid fullBoard).valid = true) :=
  ⟨by decide, by decide, by decide, by decide,
    solveSudoku_sound puzzleBoard fullBoard (by decide) (by decide) (by decide) (by decide)⟩

/-- C2: the solver keeps the givens and leaves no blank.  For every 81-cell
board `B`, conflict-free or not, if `solveSudoku(B)` returns a board `S` then
`S` contains no 0 and `S[i] = B[i]` at every index `i` where `B[i]` is
non-zero. -/
theorem solveSudoku_keeps_givens (B S : List Nat) (hlen : B.length = 81)
    (hret : (solveSudoku B 0).ret = some S) :
    0 ∉ S ∧ ∀ i, i < 81 → B[i]? ≠ some 0 → S[i]? = B[i]? := by
  have hS := solveSudoku_extends B S hret
  have hSlen : S.length = 81 := by rw [hS.1, hlen]
  refine ⟨?_, fun i _ hi => hS.2.1 i (Or.inr hi)⟩
  intro h0
  obtain ⟨k, hk, hkv⟩ := (mem_iff_lookup_lt S 81 hSlen 0).1 h0
  obtain ⟨w, hw, hw0, -⟩ := extends_cell B S hlen hS k hk
  rw [hw] at hkv
  exact hw0 (Option.some.inj hkv)

set_option maxRecDepth 1000000 in
/-- Witness for C2 at `conflictBoard`, whose givens clash in the last row. -/
theorem solveSudoku_keeps_givens_witness :
    conflictBoard.length = 81 ∧ (solveSudoku conflictBoard 0).ret = some conflictSolved ∧
      (0 ∉ conflictSolved ∧
        ∀ i, i < 81 → conflictBoard[i]? ≠ some 0 → conflictSolved[i]? = conflictBoard[i]?) :=
  ⟨by decide, by decide,
    solveSudoku_keeps_givens conflictBoard conflictSolved (by decide) (by decide)⟩

/-- C3: solver completeness.  For every 81-cell board `B` with values in
`0..9`, whenever some board `T` has every cell in `1..9`, repeats no digit in
a row, column or box, and agrees with `B` on every non-zero cell of `B`,
`solveSudoku(B)` returns a board and not `null`. -/
theorem solveSudoku_complete (B T : List Nat) (_hlen : B.length = 81) (_hrange : InRange 0 B)
    (hTlen : T.length = 81) (hT : InRange 1 T) (hTvalid : NoRepeat T)
    (hagree : ∀ i, i < 81 → B[i]? ≠ some 0 → T[i]? = B[i]?) :
    ∃ S, (solveSudoku B 0).ret = some S := by
  have h := solveFrom_complete T 81 B 0 rfl (completion_of_board B T hTlen hT hTvalid hagree)
  exact Option.ne_none_iff_exists'.1 h

set_option maxRecDepth 1000000 in
/-- Witness for C3 at `sparseBoard`, of which `fullBoard` is a completion. -/
theorem solveSudoku_complete_witness :
    sparseBoard.length = 81 ∧ InRange 0 sparseBoard ∧ fullBoard.length = 81 ∧
      InRange 1 fullBoard ∧ NoRepeat fullBoard ∧
      (∀ i, i < 81 → sparseBoard[i]? ≠ some 0 → fullBoard[i]? = sparseBoard[i]?) ∧
      ∃ S, (solveSudoku sparseBoard 0).ret = some S :=
  ⟨by decide, by decide, by decide, by decide, noRepeat_fullBoard, by decide,
    solveSudoku_complete sparseBoard fullBoard (by decide) (by decide) (by decide) (by decide)
      noRepeat_fullBoard (by decide)⟩

set_option maxRecDepth 1000000 in
/-- C10: `solveSudoku` applied to the all-zero 81-cell board returns a board,
not `null`; the board has no 0 cell and repeats no digit in any row, column or
3x3 box. -/
theorem solveSudoku_emptyBoard :
    ∃ S, (solveSudoku emptyBoard 0).ret = some S ∧ S.length = 81 ∧ 0 ∉ S ∧ NoRepeat S ∧
      (validateGrid S).valid = true := by
  have hc : Completion fullBoard emptyBoard :=
    completion_of_board emptyBoard fullBoard (by decide) (by decide) noRepeat_fullBoard
      (by decide)
  obtain ⟨S, hret⟩ := Option.ne_none_iff_exists'.1 (solveFrom_complete fullBoard 81 emptyBoard 0 rfl hc)
  have hS := solveSudoku_extends emptyBoard S hret
  have hSlen : S.length = 81 := by rw [hS.1]; decide
  have hno : NoRepeat S :=
    extends_noRepeat emptyBoard S ((valid_iff_noRepeat emptyBoard).1 (by decide)) hS
  refine ⟨S, hret, hSlen, ?_, hno, (valid_iff_noRepeat S).2 hno⟩
  intro h0
  obtain ⟨k, hk, hkv⟩ := (mem_iff_lookup_lt S 81 hSlen 0).1 h0
  obtain ⟨w, hw, hw0, -⟩ := extends_cell emptyBoard S (by decide) hS k hk
  rw [hw] at hkv
  exact hw0 (Option.some.inj hkv)

/-- C4, amended: for every 81-cell board, every index in `0..80` and every
digit in `1..9`, when the cell at `index` does not itself hold the digit,
`isValid` returns true if and only if no other cell of the row, column or box
of `index` holds the digit; when the cell at `index` holds the digit,
`isValid` returns false. -/
theorem isValid_iff_no_other (B : List Nat) (i d : Nat) (_hlen : B.length = 81)
    (hi : i < 81) (_hd1 : 1 ≤ d) (_hd9 : d ≤ 9) :
    (B[i]? ≠ some d →
      (isValid B i d = true ↔ ∀ j, j < 81 → j ≠ i → SameGroup i j → B[j]? ≠ some d)) ∧
    (B[i]? = some d → isValid B i d = false) := by
  constructor
  · intro hne
    rw [isValid_eq_true_iff B i d hi]
    constructor
    · intro h j hj _ hg
      exact h j hj hg
    · intro h j hj hg
      by_cases hji : j = i
      · subst hji; exact hne
      · exact h j hj hji hg
  · intro he
    rw [← Bool.not_eq_true, isValid_eq_true_iff B i d hi]
    intro h
    exact h i hi (Or.inl rfl) he

/-- Witness for C4 (amended) at `dupBoard`, cell 2 and digit 5. -/
theorem isValid_iff_no_other_witness :
    dupBoard.length = 81 ∧ 2 < 81 ∧ 1 ≤ 5 ∧ 5 ≤ 9 ∧
      ((dupBoard[2]? ≠ some 5 →
        (isValid dupBoard 2 5 = true ↔
          ∀ j, j < 81 → j ≠ 2 → SameGroup 2 j → dupBoard[j]? ≠ some 5)) ∧
      (dupBoard[2]? = some 5 → isValid dupBoard 2 5 = false)) :=
  ⟨by decide, by decide, by decide, by decide,
    isValid_iff_no_other dupBoard 2 5 (by decide) (by decide) (by decide) (by decide)⟩

set_option maxRecDepth 100000 in
/-- C4 fails as stated: on `singleBoard` no cell other than cell 0 holds 5 in
the row, column or box of cell 0, yet `isValid(singleBoard, 0, 5)` is false,
because the loops also visit cell 0 itself. -/
theorem isValid_other_cells_counterexample :
    singleBoard.length = 81 ∧
      (∀ j, j < 81 → j ≠ 0 → SameGroup 0 j → singleBoard[j]? ≠ some 5) ∧
      isValid singleBoard 0 5 = false := by
  decide

/-- C5: for every 81-cell board `B`, every index `i` in `0..80` and every
digit `d` in `1..9`, `isValid(B, i, d)` returns false if and only if at least
one cell of the row, the column or the box of `i`, the cell `i` itself
counted among them, holds `d`. -/
theorem isValid_false_iff (B : List Nat) (i d : Nat) (_hlen : B.length = 81)
    (hi : i < 81) (_hd1 : 1 ≤ d) (_hd9 : d ≤ 9) :
    isValid B i d = false ↔ ∃ j, j < 81 ∧ SameGroup i j ∧ B[j]? = some d := by
  rw [← Bool.not_eq_true, isValid_eq_true_iff B i d hi]
  push_neg
  rfl

/-- Witness for C5 at `singleBoard`, cell 0 and digit 5. -/
theorem isValid_false_iff_witness :
    singleBoard.length = 81 ∧ 0 < 81 ∧ 1 ≤ 5 ∧ 5 ≤ 9 ∧
      (isValid singleBoard 0 5 = false ↔
        ∃ j, j < 81 ∧ SameGroup 0 j ∧ singleBoard[j]? = some 5) :=
  ⟨by decide, by decide, by decide, by decide,
    isValid_false_iff singleBoard 0 5 (by decide) (by decide) (by decide) (by decide)⟩

/-- C6: for every 81-cell board with values in `0..9`, `validateGrid` returns
true if and only if each of the 9 rows, 9 columns and 9 boxes contains each
digit `1..9` at most once; zeros are ignored and the board need not be
complete. -/
theorem validateGrid_valid_iff (B : List Nat) (hlen : B.length = 81) (hrange : InRange 0 B) :
    (validateGrid B).valid = true ↔ AtMostOnce B := by
  rw [valid_iff_noRepeat]
  exact ⟨atMostOnce_of_noRepeat B, noRepeat_of_atMostOnce B hlen hrange⟩

set_option maxRecDepth 1000000 in
/-- Witness for C6 at `sparseBoard`, an incomplete board without conflict. -/
theorem validateGrid_valid_iff_witness :
    sparseBoard.length = 81 ∧ InRange 0 sparseBoard ∧
      ((validateGrid sparseBoard).valid = true ↔ AtMostOnce sparseBoard) :=
  ⟨by decide, by decide, validateGrid_valid_iff sparseBoard (by decide) (by decide)⟩

/-- C7, amended: for every 81-cell board with values in `0..9` and every row,
column or box, if a digit `1..9` is held by two cells `y < x` of the group,
then `validateGrid` marks `x`: every cell of the group holding the digit is
marked, except the one of lowest index. -/
theorem validateGrid_marks_repeats (B : List Nat) (x y d : Nat) (_hlen : B.length = 81)
    (_hrange : InRange 0 B) (hx : x < 81) (hyx : y < x) (hg : SameGroup x y)
    (hd1 : 1 ≤ d) (_hd9 : d ≤ 9) (hBx : B[x]? = some d) (hBy : B[y]? = some d) :
    x ∈ (validateGrid B).invalid := by
  rw [mem_invalid_iff]
  refine ⟨hx, ?_, y, hyx, hg, by rw [hBx, hBy]⟩
  rw [hBx]
  simp only [ne_eq, Option.some.injEq]
  omega

set_option maxRecDepth 1000000 in
/-- Witness for C7 (amended) at `dupBoard`: cell 1 repeats the 5 of cell 0. -/
theorem validateGrid_marks_repeats_witness :
    dupBoard.length = 81 ∧ InRange 0 dupBoard ∧ 1 < 81 ∧ 0 < 1 ∧ SameGroup 1 0 ∧
      1 ≤ 5 ∧ 5 ≤ 9 ∧ dupBoard[1]? = some 5 ∧ dupBoard[0]? = some 5 ∧
      1 ∈ (validateGrid dupBoard).invalid :=
  ⟨by decide, by decide, by decide, by decide, by decide, by decide, by decide, by decide,
    by decide,
    validateGrid_marks_repeats dupBoard 1 0 5 (by decide) (by decide) (by decide) (by decide)
      (by decide) (by decide) (by decide) (by decide) (by decide)⟩

set_option maxRecDepth 1000000 in
/-- C7 fails as stated: on `dupBoard` the digit 5 occurs twice in row 0, in
cells 0 and 1, yet `validateGrid` does not mark cell 0, the first
occurrence; cell 1 is the only cell marked. -/
theorem validateGrid_first_occurrence_counterexample :
    dupBoard.length = 81 ∧ InRange 0 dupBoard ∧ rowOf 0 = 0 ∧ rowOf 1 = 0 ∧
      dupBoard[0]? = some 5 ∧ dupBoard[1]? = some 5 ∧
      0 ∉ (validateGrid dupBoard).invalid ∧ (validateGrid dupBoard).invalid = [1] := by
  decide

/-- C8, amended: for every 81-cell board with values in `0..9` in which two
different cells of one row hold the same non-zero digit, `solveSudoku` never
returns a conflict-free board: it returns `null`, or it returns a board that
still holds that digit in both cells and on which `validateGrid` returns
false. -/
theorem solveSudoku_row_duplicate (B : List Nat) (i j d : Nat) (_hlen : B.length = 81)
    (_hrange : InRange 0 B) (hi : i < 81) (hj : j < 81) (hij : i ≠ j)
    (hrow : rowOf i = rowOf j) (hd : d ≠ 0) (hBi : B[i]? = some d) (hBj : B[j]? = some d) :
    (solveSudoku B 0).ret = none ∨
      ∃ S, (solveSudoku B 0).ret = some S ∧ S[i]? = some d ∧ S[j]? = some d ∧
        (validateGrid S).valid = false := by
  cases hret : (solveSudoku B 0).ret with
  | none => exact Or.inl rfl
  | some S =>
    right
    have hS := solveSudoku_extends B S hret
    have hdz : (some d : Option Nat) ≠ some 0 := by simpa using hd
    have hSi : S[i]? = some d := by rw [hS.2.1 i (Or.inr (by rw [hBi]; exact hdz)), hBi]
    have hSj : S[j]? = some d := by rw [hS.2.1 j (Or.inr (by rw [hBj]; exact hdz)), hBj]
    refine ⟨S, rfl, hSi, hSj, ?_⟩
    rw [← Bool.not_eq_true, valid_iff_noRepeat]
    intro hno
    exact hno i j hi hj hij (Or.inl hrow) (by rw [hSi]; exact hdz) (by rw [hSi, hSj])

set_option maxRecDepth 1000000 in
/-- Witness for C8 (amended) at `conflictBoard`, whose cells 72 and 73 hold 9. -/
theorem solveSudoku_row_duplicate_witness :
    conflictBoard.length = 81 ∧ InRange 0 conflictBoard ∧ 72 < 81 ∧ 73 < 81 ∧ 72 ≠ 73 ∧
      rowOf 72 = rowOf 73 ∧ 9 ≠ 0 ∧ conflictBoard[72]? = some 9 ∧
      conflictBoard[73]? = some 9 ∧
      ((solveSudoku conflictBoard 0).ret = none ∨
        ∃ S, (solveSudoku conflictBoard 0).ret = some S ∧ S[72]? = some 9 ∧
          S[73]? = some 9 ∧ (validateGrid S).valid = false) :=
  ⟨by decide, by decide, by decide, by decide, by decide, by decide, by decide, by decide,
    by decide,
    solveSudoku_row_duplicate conflictBoard 72 73 9 (by decide) (by decide) (by decide)
      (by decide) (by decide) (by decide) (by decide) (by decide) (by decide)⟩

set_option maxRecDepth 1000000 in
/-- C8 fails as stated: `fivesBoard` has 81 cells with values in `0..9`, its
cells 0 and 1 lie in one row and both hold 5, yet `solveSudoku` returns the
board itself, not `null`: no cell is empty, so no check is ever made. -/
theorem solveSudoku_row_duplicate_counterexample :
    fivesBoard.length = 81 ∧ InRange 0 fivesBoard ∧ rowOf 0 = rowOf 1 ∧
      fivesBoard[0]? = some 5 ∧ fivesBoard[1]? = some 5 ∧
      (solveSudoku fivesBoard 0).ret = some fivesBoard := by
  decide

/-- C9: for every 81-cell board whose only non-zero cells are two different
cells of one row holding the same digit `d` in `1..9`, `solveSudoku` returns
`null`, and `validateGrid` on that board returns false. -/
theorem solveSudoku_two_cell_duplicate (B : List Nat) (i j d : Nat) (_hlen : B.length = 81)
    (hi : i < 81) (hj : j < 81) (hij : i ≠ j) (hrow : rowOf i = rowOf j)
    (hd1 : 1 ≤ d) (hd9 : d ≤ 9) (hBi : B[i]? = some d) (hBj : B[j]? = some d)
    (hrest : ∀ k, k < 81 → k ≠ i → k ≠ j → B[k]? = some 0) :
    (solveSudoku B 0).ret = none ∧ (validateGrid B).valid = false := by
  have hdz : (some d : Option Nat) ≠ some 0 := by
    simp only [ne_eq, Option.some.injEq]; omega
  constructor
  · cases hret : (solveSudoku B 0).ret with
    | none => rfl
    | some S =>
      exfalso
      have hS := solveSudoku_extends B S hret
      have hSi : S[i]? = some d := by rw [hS.2.1 i (Or.inr (by rw [hBi]; exact hdz)), hBi]
      have hSj : S[j]? = some d := by rw [hS.2.1 j (Or.inr (by rw [hBj]; exact hdz)), hBj]
      exact no_fill_of_row_pair S i j d hi hj hij hrow ((mem_digits d).2 ⟨hd1, hd9⟩) hSi hSj
        (fun k hk hki hkj => hS.2.2 k (Nat.zero_le _) hk (hrest k hk hki hkj))
  · rw [← Bool.not_eq_true, valid_iff_noRepeat]
    intro hno
    exact hno i j hi hj hij (Or.inl hrow) (by rw [hBi]; exact hdz) (by rw [hBi, hBj])

set_option maxRecDepth 1000000 in
/-- Witness for C9 at `dupBoard`: cells 0 and 1 hold 5, every other cell is 0. -/
theorem solveSudoku_two_cell_duplicate_witness :
    dupBoard.length = 81 ∧ 0 < 81 ∧ 1 < 81 ∧ 0 ≠ 1 ∧ rowOf 0 = rowOf 1 ∧ 1 ≤ 5 ∧ 5 ≤ 9 ∧
      dupBoard[0]? = some 5 ∧ dupBoard[1]? = some 5 ∧
      (∀ k, k < 81 → k ≠ 0 → k ≠ 1 → dupBoard[k]? = some 0) ∧
      ((solveSudoku dupBoard 0).ret = none ∧ (validateGrid dupBoard).valid = false) :=
  ⟨by decide, by decide, by decide, by decide, by decide, by decide, by decide, by decide,
    by decide, by decide,
    solveSudoku_two_cell_duplicate dupBoard 0 1 5 (by decide) (by decide) (by decide)
      (by decide) (by decide) (by decide) (by decide) (by decide) (by decide) (by decide)⟩


/-- C11, amended: the difficulty maps to the number of placement attempts as
easy -> 30, medium -> 20 and every other value, hard included, -> 10, and
`generatePuzzle` performs exactly that many placement attempts, whatever the
draws. -/
theorem generatePuzzle_attempts (difficulty : String) (draws : Nat → Nat × Nat) :
    (generatePuzzle difficulty draws).2 =
        (if difficulty = "easy" then 30 else if difficulty = "medium" then 20 else 10) ∧
      (generatePuzzle "easy" draws).2 = 30 ∧ (generatePuzzle "medium" draws).2 = 20 ∧
      (generatePuzzle "hard" draws).2 = 10 := by
  refine ⟨?_, ?_, ?_, ?_⟩
  · unfold generatePuzzle
    rw [generateLoop_attempts]
    simp [attemptCount]
  · unfold generatePuzzle
    rw [generateLoop_attempts]
    decide
  · unfold generatePuzzle
    rw [generateLoop_attempts]
    decide
  · unfold generatePuzzle
    rw [generateLoop_attempts]
    decide

set_option maxRecDepth 1000000 in
/-- C11 fails as stated: on the draws `walkDraws` the generator makes 30
attempts for easy, 20 for medium and 10 for hard, not 51, 61 and 71. -/
theorem generatePuzzle_attempts_counterexample :
    (generatePuzzle "easy" walkDraws).2 = 30 ∧ (generatePuzzle "easy" walkDraws).2 ≠ 51 ∧
      (generatePuzzle "medium" walkDraws).2 = 20 ∧
      (generatePuzzle "medium" walkDraws).2 ≠ 61 ∧
      (generatePuzzle "hard" walkDraws).2 = 10 ∧ (generatePuzzle "hard" walkDraws).2 ≠ 71 := by
  decide

/-- C12: for every difficulty and every draw sequence of pairs (index in
`0..80`, digit in `1..9`), `generatePuzzle` returns a board of exactly 81
cells, every cell in `0..9`, whose number of non-zero cells is at most the
number of attempts made for that difficulty (itself at most 30); for easy the
number of non-zero cells is at most 51. -/
theorem generatePuzzle_board (difficulty : String) (draws : Nat → Nat × Nat)
    (hd : DrawsInRange draws) :
    (generatePuzzle difficulty draws).1.length = 81 ∧
      InRange 0 (generatePuzzle difficulty draws).1 ∧
      filledCells (generatePuzzle difficulty draws).1 ≤ (generatePuzzle difficulty draws).2 ∧
      (generatePuzzle difficulty draws).2 ≤ 30 ∧
      (difficulty = "easy" → filledCells (generatePuzzle difficulty draws).1 ≤ 51) := by
  have hfill : filledCells (generatePuzzle difficulty draws).1 ≤
      (generatePuzzle difficulty draws).2 := by
    unfold generatePuzzle
    rw [generateLoop_attempts]
    have h := generateLoop_filled draws (attemptCount difficulty) 0 (List.replicate 81 0)
    have h0 : filledCells (List.replicate 81 0) = 0 := by decide
    omega
  have hcount : (generatePuzzle difficulty draws).2 ≤ 30 := by
    unfold generatePuzzle
    rw [generateLoop_attempts]
    unfold attemptCount
    split
    · omega
    · split <;> omega
  refine ⟨?_, ?_, hfill, hcount, fun _ => by omega⟩
  · unfold generatePuzzle
    rw [generateLoop_length]
    rfl
  · unfold generatePuzzle
    exact generateLoop_inRange draws (fun k => (hd k).2.2) _ _ _ (by decide)

/-- Witness for C12 at difficulty easy and the draws `walkDraws`. -/
theorem generatePuzzle_board_witness :
    DrawsInRange walkDraws ∧
      ((generatePuzzle "easy" walkDraws).1.length = 81 ∧
        InRange 0 (generatePuzzle "easy" walkDraws).1 ∧
        filledCells (generatePuzzle "easy" walkDraws).1 ≤ (generatePuzzle "easy" walkDraws).2 ∧
        (generatePuzzle "easy" walkDraws).2 ≤ 30 ∧
        ("easy" = "easy" → filledCells (generatePuzzle "easy" walkDraws).1 ≤ 51)) :=
  ⟨fun k => by simp only [walkDraws]; omega,
    generatePuzzle_board "easy" walkDraws (fun k => by simp only [walkDraws]; omega)⟩

set_option maxRecDepth 1000000 in
/-- C13: the generator applies no rule check.  For difficulty hard and the
draws `dupDraws` (index in `0..80`, digit in `1..9`), the board
`generatePuzzle` returns holds 5 twice in row 0, `validateGrid` returns false
on it, `solveSudoku` returns `null` on it, and it has no conflict-free
completion. -/
theorem generatePuzzle_conflict :
    DrawsInRange dupDraws ∧
      (generatePuzzle "hard" dupDraws).1[0]? = some 5 ∧
      (generatePuzzle "hard" dupDraws).1[1]? = some 5 ∧ rowOf 0 = rowOf 1 ∧
      (validateGrid (generatePuzzle "hard" dupDraws).1).valid = false ∧
      (solveSudoku (generatePuzzle "hard" dupDraws).1 0).ret = none ∧
      ¬ ∃ T, Completion T (generatePuzzle "hard" dupDraws).1 := by
  have hb : (generatePuzzle "hard" dupDraws).1 = dupBoard := by decide
  have hnone : (solveSudoku dupBoard 0).ret = none := by
    cases hret : (solveSudoku dupBoard 0).ret with
    | none => rfl
    | some S =>
      exfalso
      have hS := solveSudoku_extends dupBoard S hret
      have hS0 : S[0]? = some 5 := by rw [hS.2.1 0 (Or.inr (by decide))]; rfl
      have hS1 : S[1]? = some 5 := by rw [hS.2.1 1 (Or.inr (by decide))]; rfl
      have hrest : ∀ k, k < 81 → k ≠ 0 → k ≠ 1 → dupBoard[k]? = some 0 := by decide
      exact no_fill_of_row_pair S 0 1 5 (by decide) (by decide) (by decide) (by decide)
        (by decide) hS0 hS1
        (fun k hk hk0 hk1 => hS.2.2 k (Nat.zero_le _) hk (hrest k hk hk0 hk1))
  rw [hb]
  refine ⟨fun k => ?_, by decide, by decide, by decide, by decide, hnone, ?_⟩
  · simp only [dupDraws]; omega
  · rintro ⟨T, hT⟩
    exact solveFrom_complete T 81 dupBoard 0 rfl hT hnone

/-- C14: generator first-write-wins.  For every difficulty and every draw
sequence of pairs (index in `0..80`, digit in `1..9`), the non-zero cells of
the board `generatePuzzle` returns are exactly the indices named by the first
`count` draws, and each such cell holds the digit of the first draw that
named it. -/
theorem generatePuzzle_first_write (difficulty : String) (draws : Nat → Nat × Nat)
    (hd : DrawsInRange draws) (i : Nat) :
    ((∃ v, (generatePuzzle difficulty draws).1[i]? = some v ∧ v ≠ 0) ↔
        ∃ k, k < attemptCount difficulty ∧ (draws k).1 = i) ∧
      ∀ k, k < attemptCount difficulty → (draws k).1 = i →
        (∀ k', k' < k → (draws k').1 ≠ i) →
        (generatePuzzle difficulty draws).1[i]? = some (draws k).2 := by
  have hd0 : ∀ k, (draws k).2 ≠ 0 := fun k => by have := (hd k).2.1; omega
  have hfirst : ∀ k, k < attemptCount difficulty → (draws k).1 = i →
      (∀ k', k' < k → (draws k').1 ≠ i) →
      (generatePuzzle difficulty draws).1[i]? = some (draws k).2 := by
    intro k hk hki hmin
    have hi : i < 81 := by have := (hd k).1; omega
    exact generateLoop_first draws hd0 i _ 0 _ k (replicate_lookup i hi) (Nat.zero_le _)
      (by omega) hki (fun j' _ hj => hmin j' hj)
  refine ⟨⟨?_, ?_⟩, hfirst⟩
  · rintro ⟨v, hv, hv0⟩
    by_contra hno
    have hi : i < 81 := by
      have h1 := (List.getElem?_eq_some_iff.1 hv).1
      have h2 : (generatePuzzle difficulty draws).1.length = 81 := by
        unfold generatePuzzle; rw [generateLoop_length]; rfl
      omega
    have h := generateLoop_untouched draws i (attemptCount difficulty) 0 _
      (replicate_lookup i hi) (fun j _ hj hji => hno ⟨j, by omega, hji⟩)
    unfold generatePuzzle at hv
    rw [h] at hv
    exact hv0 (Option.some.inj hv).symm
  · rintro ⟨k, hk, hki⟩
    obtain ⟨j, hj, hji, hmin⟩ := exists_first_draw draws i _ k hk hki
    exact ⟨(draws j).2, hfirst j hj hji hmin, hd0 j⟩

set_option maxRecDepth 1000000 in
/-- Witness for C14 at difficulty hard, the draws `walkDraws` and cell 7. -/
theorem generatePuzzle_first_write_witness :
    DrawsInRange walkDraws ∧
      (((∃ v, (generatePuzzle "hard" walkDraws).1[7]? = some v ∧ v ≠ 0) ↔
          ∃ k, k < attemptCount "hard" ∧ (walkDraws k).1 = 7) ∧
        ∀ k, k < attemptCount "hard" → (walkDraws k).1 = 7 →
          (∀ k', k' < k → (walkDraws k').1 ≠ 7) →
          (generatePuzzle "hard" walkDraws).1[7]? = some (walkDraws k).2) :=
  ⟨fun k => by simp only [walkDraws]; omega,
    generatePuzzle_first_write "hard" walkDraws (fun k => by simp only [walkDraws]; omega) 7⟩

/-- C15: backtracking undoes every tentative placement.  For every 81-cell
board `B` and every start index, if `solveSudoku(B, index)` returns `null`
then the array is, on return, equal to what it was on entry. -/
theorem solveSudoku_restores (B : List Nat) (index : Nat) (_hlen : B.length = 81)
    (h : (solveSudoku B index).ret = none) : (solveSudoku B index).values = B :=
  solveFrom_values_of_none (81 - index) B index h

set_option maxRecDepth 1000000 in
/-- Witness for C15 at `deadEndBoard`: the 4 tried in cell 79 is taken back. -/
theorem solveSudoku_restores_witness :
    deadEndBoard.length = 81 ∧ (solveSudoku deadEndBoard 0).ret = none ∧
      (solveSudoku deadEndBoard 0).values = deadEndBoard :=
  ⟨by decide, by decide, solveSudoku_restores deadEndBoard 0 (by decide) (by decide)⟩

/-- C16: the exact set of cells `validateGrid` marks.  For every 81-cell board,
cell `i` is marked if and only if its value is non-zero and some cell `j < i`
of the same row, column or box holds the same value; a cell holding 0 is never
marked, cell 0 is never marked, and `checkSet` on a group does not mark a cell
that no earlier cell of the group duplicates. -/
theorem validateGrid_marked_iff (B : List Nat) (_hlen : B.length = 81) (i : Nat)
    (hi : i < 81) :
    (i ∈ (validateGrid B).invalid ↔
        B[i]? ≠ some 0 ∧ ∃ j, j < i ∧ SameGroup i j ∧ B[j]? = B[i]?) ∧
      (B[i]? = some 0 → i ∉ (validateGrid B).invalid) ∧
      0 ∉ (validateGrid B).invalid ∧
      ∀ g ∈ allGroups, ∀ st : GridState, (∀ y ∈ g, y < i → B[y]? ≠ B[i]?) →
        (i ∈ (checkSet B g st).invalid ↔ i ∈ st.invalid) := by
  refine ⟨?_, ?_, ?_, ?_⟩
  · rw [mem_invalid_iff]
    exact ⟨fun h => h.2, fun h => ⟨hi, h⟩⟩
  · intro h0 hm
    exact ((mem_invalid_iff B i).1 hm).2.1 h0
  · intro hm
    obtain ⟨-, -, j, hj, -⟩ := (mem_invalid_iff B 0).1 hm
    omega
  · intro g hg st hfirst
    unfold checkSet
    rw [(checkSetLoop_spec B g (allGroups_sorted g hg) [] st).2 i, flagged_nil_seen]
    constructor
    · rintro (h | ⟨-, -, y, hy, hyi, hyv⟩)
      · exact h
      · exact absurd hyv (hfirst y hy hyi)
    · exact Or.inl

set_option maxRecDepth 1000000 in
/-- Witness for C16 at `dupBoard` and cell 1, which repeats the 5 of cell 0. -/
theorem validateGrid_marked_iff_witness :
    dupBoard.length = 81 ∧ 1 < 81 ∧ 1 ∈ (validateGrid dupBoard).invalid ∧
      ((1 ∈ (validateGrid dupBoard).invalid ↔
          dupBoard[1]? ≠ some 0 ∧ ∃ j, j < 1 ∧ SameGroup 1 j ∧ dupBoard[j]? = dupBoard[1]?) ∧
        (dupBoard[1]? = some 0 → 1 ∉ (validateGrid dupBoard).invalid) ∧
        0 ∉ (validateGrid dupBoard).invalid ∧
        ∀ g ∈ allGroups, ∀ st : GridState, (∀ y ∈ g, y < 1 → dupBoard[y]? ≠ dupBoard[1]?) →
          (1 ∈ (checkSet dupBoard g st).invalid ↔ 1 ∈ st.invalid)) :=
  ⟨by decide, by decide, by decide, validateGrid_marked_iff dupBoard (by decide) 1 (by decide)⟩

/-- C17: the first solution found is the least one.  For every conflict-free
81-cell board `B` with values in `0..9`, if `solveSudoku(B)` returns `S` then
`S` is a complete conflict-free board agreeing with `B` on the non-zero cells
of `B`, and `S` is lexicographically at most every such board. -/
theorem solveSudoku_least (B S : List Nat) (hlen : B.length = 81) (hrange : InRange 0 B)
    (hvalid : (validateGrid B).valid = true) (hret : (solveSudoku B 0).ret = some S) :
    (S.length = 81 ∧ InRange 1 S ∧ NoRepeat S ∧
        ∀ i, i < 81 → B[i]? ≠ some 0 → S[i]? = B[i]?) ∧
      ∀ T : List Nat, T.length = 81 → InRange 1 T → NoRepeat T →
        (∀ i, i < 81 → B[i]? ≠ some 0 → T[i]? = B[i]?) → LexLe S T := by
  have hS := solveSudoku_extends B S hret
  have hSlen : S.length = 81 := by rw [hS.1, hlen]
  refine ⟨⟨hSlen, ?_, extends_noRepeat B S ((valid_iff_noRepeat B).1 hvalid) hS,
    fun i _ h => hS.2.1 i (Or.inr h)⟩, ?_⟩
  · intro v hv
    obtain ⟨k, hk, hkv⟩ := (mem_iff_lookup_lt S 81 hSlen v).1 hv
    obtain ⟨w, hw, hw0, hB⟩ := extends_cell B S hlen hS k hk
    have hwv : w = v := by rw [hw] at hkv; exact Option.some.inj hkv
    subst hwv
    rcases hB with hB | ⟨-, hB⟩
    · have := hrange w (List.getElem?_mem hB)
      omega
    · exact (mem_digits w).1 hB
  · intro T hTlen hT hTvalid hagree
    exact solveFrom_least T 81 B S 0 rfl (completion_of_board B T hTlen hT hTvalid hagree)
      (fun k hk => absurd hk (Nat.not_lt_zero k)) hret

set_option maxRecDepth 1000000 in
/-- Witness for C17 at `puzzleBoard`, which the search completes to `fullBoard`. -/
theorem solveSudoku_least_witness :
    puzzleBoard.length = 81 ∧ InRange 0 puzzleBoard ∧
      (validateGrid puzzleBoard).valid = true ∧
      (solveSudoku puzzleBoard 0).ret = some fullBoard ∧
      ((fullBoard.length = 81 ∧ InRange 1 fullBoard ∧ NoRepeat fullBoard ∧
          ∀ i, i < 81 → puzzleBoard[i]? ≠ some 0 → fullBoard[i]? = puzzleBoard[i]?) ∧
        ∀ T : List Nat, T.length = 81 → InRange 1 T → NoRepeat T →
          (∀ i, i < 81 → puzzleBoard[i]? ≠ some 0 → T[i]? = puzzleBoard[i]?) →
          LexLe fullBoard T) :=
  ⟨by decide, by decide, by decide, by decide,
    solveSudoku_least puzzleBoard fullBoard (by decide) (by decide) (by decide) (by decide)⟩

/-- C18: `isValid` and `validateGrid` agree on what a conflict is.  For every
81-cell board `B` with values in `0..9` on which `validateGrid` returns true,
every index `i` in `0..80` with `B[i] = 0` and every digit `d` in `1..9`,
`isValid(B, i, d)` is true if and only if `validateGrid` returns true on `B`
with cell `i` set to `d`. -/
theorem isValid_iff_validateGrid_set (B : List Nat) (i d : Nat) (_hlen : B.length = 81)
    (_hrange : InRange 0 B) (hvalid : (validateGrid B).valid = true) (hi : i < 81)
    (h0 : B[i]? = some 0) (hd1 : 1 ≤ d) (_hd9 : d ≤ 9) :
    isValid B i d = true ↔ (validateGrid (B.set i d)).valid = true := by
  have hB := (valid_iff_noRepeat B).1 hvalid
  have hdz : (some d : Option Nat) ≠ some 0 := by
    simp only [ne_eq, Option.some.injEq]; omega
  have hset : (B.set i d)[i]? = some d := lookup_set_self B d h0
  rw [valid_iff_noRepeat, isValid_eq_true_iff B i d hi]
  constructor
  · intro h a b ha hb hab hg hnz
    by_cases hai : a = i
    · subst hai
      rw [hset, lookup_set_of_ne B d (Ne.symm hab)]
      exact fun e => h b hb hg e.symm
    · rw [lookup_set_of_ne B d hai] at hnz ⊢
      by_cases hbi : b = i
      · subst hbi
        rw [hset]
        exact h a ha hg.symm
      · rw [lookup_set_of_ne B d hbi]
        exact hB a b ha hb hab hg hnz
  · intro h j hj hg
    by_cases hji : j = i
    · subst hji
      rw [h0]
      exact fun e => hdz e.symm
    · have := h i j hi hj (Ne.symm hji) hg (by rw [hset]; exact hdz)
      rw [hset, lookup_set_of_ne B d hji] at this
      exact fun e => this e.symm

set_option maxRecDepth 1000000 in
/-- Witness for C18 at `sparseBoard`, cell 1 and digit 5. -/
theorem isValid_iff_validateGrid_set_witness :
    sparseBoard.length = 81 ∧ InRange 0 sparseBoard ∧
      (validateGrid sparseBoard).valid = true ∧ 1 < 81 ∧ sparseBoard[1]? = some 0 ∧
      1 ≤ 5 ∧ 5 ≤ 9 ∧
      (isValid sparseBoard 1 5 = true ↔ (validateGrid (sparseBoard.set 1 5)).valid = true) :=
  ⟨by decide, by decide, by decide, by decide, by decide, by decide, by decide,
    isValid_iff_validateGrid_set sparseBoard 1 5 (by decide) (by decide) (by decide)
      (by decide) (by decide) (by decide) (by decide)⟩

set_option maxRecDepth 1000000 in
/-- C19: the board `solveSudoku` returns for the all-zero 81-cell board has
first row 1 2 3 4 5 6 7 8 9: cell `k` holds `k + 1` for `k` in `0..8`. -/
theorem solveSudoku_emptyBoard_first_row :
    ∃ S, (solveSudoku emptyBoard 0).ret = some S ∧ ∀ k, k < 9 → S[k]? = some (k + 1) := by
  have hc : Completion fullBoard emptyBoard :=
    completion_of_board emptyBoard fullBoard (by decide) (by decide) noRepeat_fullBoard
      (by decide)
  obtain ⟨S, hret⟩ :=
    Option.ne_none_iff_exists'.1 (solveFrom_complete fullBoard 81 emptyBoard 0 rfl hc)
  refine ⟨S, hret, ?_⟩
  have hS := solveSudoku_extends emptyBoard S hret
  have hno : NoRepeat S :=
    extends_noRepeat emptyBoard S ((valid_iff_noRepeat emptyBoard).1 (by decide)) hS
  have hfull : ∀ m, m < 9 → fullBoard[m]? = some (m + 1) := by decide
  have hle := solveFrom_least fullBoard 81 emptyBoard S 0 rfl hc
    (fun k hk => absurd hk (Nat.not_lt_zero k)) hret
  intro k hk
  rcases hle with hle | ⟨k0, hk0, hagree, s, t, hs, ht, hlt⟩
  · rw [hle k (by omega), hfull k hk]
  · by_cases h9 : k < k0
    · rw [hagree k h9, hfull k hk]
    · exfalso
      have hk09 : k0 < 9 := by omega
      have ht2 : t = k0 + 1 := by
        rw [hfull k0 hk09] at ht
        exact (Option.some.inj ht).symm
      obtain ⟨w, hw, hw0, -⟩ := extends_cell emptyBoard S (by decide) hS k0 hk0
      have hws : w = s := by rw [hw] at hs; exact Option.some.inj hs
      subst hws
      have hw1 : 1 ≤ w := Nat.pos_of_ne_zero hw0
      have e : w - 1 + 1 = w := Nat.sub_add_cancel hw1
      have hm : S[w - 1]? = some w := by
        rw [hagree (w - 1) (by omega), hfull (w - 1) (by omega), e]
      have hrow : SameGroup (w - 1) k0 := Or.inl (by unfold rowOf; omega)
      have hne : w - 1 ≠ k0 := by omega
      have hnz : S[w - 1]? ≠ some 0 := by
        rw [hm]
        exact fun h => hw0 (Option.some.inj h)
      have heq : S[w - 1]? = S[k0]? := by rw [hm, hw]
      exact hno (w - 1) k0 (by omega) hk0 hne hrow hnz heq

end Sudoku
